import Mathlib

/-!
Verification of the WHAM / PMF analysis module (`Membrane/wham.py`).

The Python module is embedded shallowly over exact rationals:

* numpy float arrays become `List ℚ`;
* the transcendental functions `np.exp`, `np.log`, `np.sqrt` are passed as
  explicit function parameters `(e l sq : ℚ → ℚ)` so that every definition
  stays computable; theorems assume only the algebraic facts about them that
  the corresponding Python code relies on (e.g. positivity of `exp`), and the
  concrete witnesses instantiate them with simple rational functions
  satisfying those facts;
* `None` becomes `Option.none`;
* numpy elementwise arithmetic becomes `List.zipWith` / `List.map`, and
  numpy reductions become `List.sum` / folds, in the same order as the code;
* division by zero, which numpy turns into a warning plus `inf`/`nan`
  (and which the surrounding code tolerates), is `x / 0 = 0` in ℚ.
-/

/-- Unit tag `KJMOL = 1` from the module header. -/
def KJMOL : ℕ := 1

/-- Unit tag `KCALMOL = 2` from the module header. -/
def KCALMOL : ℕ := 2

/-- Boltzmann-constant table `KB` from the module header. -/
def KB (u : ℕ) : ℚ :=
  if u = KJMOL then 0.00831446210 else if u = KCALMOL then 0.001982923700 else 0

/-- Energy conversion table `ECONV` from the module header
(`1.0/4.184` and `4.184`, exact in ℚ). -/
def ECONV (u v : ℕ) : ℚ :=
  if u = KJMOL then (if v = KJMOL then 1 else if v = KCALMOL then 1 / 4.184 else 0)
  else if u = KCALMOL then (if v = KJMOL then 4.184 else if v = KCALMOL then 1 else 0)
  else 0

/-- Label table `ELABEL` from the module header. -/
def ELABEL (u : ℕ) : String :=
  if u = KJMOL then "kJ/mol" else if u = KCALMOL then "kcal/mol" else ""

/-- Reverse label table `LABEL2UNIT` from the module header; a missing key is
a Python `KeyError`, modelled as `none`. -/
def LABEL2UNIT (s : String) : Option ℕ :=
  if s = "kJ/mol" then some KJMOL else if s = "kcal/mol" then some KCALMOL else none

/-- Fixed-point decimal rounding used to model the `"%.3f"` / `"%.4f"`
formatting in `UmbrellaPmf.write`: the written text carries the value rounded
to `d` decimal places. -/
def roundTo (d : ℕ) (q : ℚ) : ℚ := (round (q * (10 : ℚ) ^ d) : ℚ) / (10 : ℚ) ^ d

/-- State of an `UmbrellaSimulations` object (window collection):
per-window centers, weights and sample arrays, plus the `histograms` and
`bins` attributes which are `None` until built. -/
structure UmbrellaSimulations where
  temperature : ℚ
  unit : ℕ
  centers : List ℚ
  weights : List ℚ
  samples : List (List ℚ)
  histograms : Option (List (List ℚ))
  bins : Option (List ℚ)
deriving DecidableEq

/-- Derived attribute `kT = boltzmann * temperature`. -/
def UmbrellaSimulations.kT (s : UmbrellaSimulations) : ℚ := KB s.unit * s.temperature

/-- Module-level `make_bins(data, nbins, boundaries)`: per-data-set 99%
confidence interval `(mean - 2.58*std, mean + 2.58*std)` (with
`std = sqrt(mean((x-mean)^2))`, numpy's population std), folded to an overall
min/max, then `np.linspace(mn, ma, nbins+1, endpoint=True)`. -/
def make_bins (sq : ℚ → ℚ) (data : List (List ℚ)) (nbins : ℕ)
    (boundaries : Option (ℚ × ℚ)) : List ℚ :=
  let conf : List ℚ → ℚ × ℚ := fun d =>
    let mean := d.sum / (d.length : ℚ)
    let std := sq ((d.map (fun x => (x - mean) ^ 2)).sum / (d.length : ℚ))
    (mean - 2.58 * std, mean + 2.58 * std)
  let mnma : ℚ × ℚ :=
    match boundaries with
    | some b => b
    | none =>
        data.tail.foldl (fun acc d =>
          let c := conf d
          (min acc.1 c.1, max acc.2 c.2)) (conf (data.headD []))
  (List.range (nbins + 1)).map
    (fun i => mnma.1 + (i : ℚ) * (mnma.2 - mnma.1) / (nbins : ℚ))

/-- Alias for the module-level `make_bins`, to reference it unambiguously from
the method of the same name. -/
def makeBinsModule : (ℚ → ℚ) → List (List ℚ) → ℕ → Option (ℚ × ℚ) → List ℚ := make_bins

/-- Method `UmbrellaSimulations.make_bins`: a no-op when `bins` is already
set, otherwise computes and stores the shared bin edges. -/
def UmbrellaSimulations.make_bins (sq : ℚ → ℚ) (s : UmbrellaSimulations)
    (nbins : ℕ) (boundaries : Option (ℚ × ℚ)) : UmbrellaSimulations :=
  match s.bins with
  | some _ => s
  | none => { s with bins := some (makeBinsModule sq s.samples nbins boundaries) }

/-- Method `UmbrellaSimulations.pairwise_overlap`: `None` when histograms have
not been made; otherwise, for each adjacent window pair, elementwise
`sqrt(h1*h2)` summed over bins, divided by `sqrt(n1*n2)` (product of the two
windows' sample counts), times 100. -/
def UmbrellaSimulations.pairwise_overlap (sq : ℚ → ℚ) (s : UmbrellaSimulations) :
    Option (List ℚ) :=
  match s.histograms with
  | none => none
  | some hs =>
      let pairwise_o := List.zipWith (fun h1 h2 => List.zipWith (fun a b => sq (a * b)) h1 h2)
        hs.dropLast hs.tail
      let pairwise_n := List.zipWith
        (fun s1 s2 => sq ((s1.length : ℚ) * (s2.length : ℚ)))
        s.samples.dropLast s.samples.tail
      some (List.zipWith (fun o n => o.sum / n * 100) pairwise_o pairwise_n)

/-- State of an `UmbrellaPmf` object (PMF ensemble).  The Python object keeps
`self.simulations` (a list of window collections); `change_unit` only reads
`simulations[0].temperature` from it, so that scalar is kept as the field
`temperature`. -/
structure UmbrellaPmf where
  z : List ℚ
  av : List ℚ
  std : List ℚ
  pmfs : List (List ℚ)
  unit : ℕ
  kT : ℚ
  temperature : ℚ
deriving DecidableEq

/-- Method `UmbrellaPmf.change_unit`: a no-op when already in the target unit;
otherwise rescales `pmfs`, `av`, `std` by `ECONV[self.unit][unit]` and sets
`kT = simulations[0].temperature * KB[unit]`. -/
def UmbrellaPmf.change_unit (p : UmbrellaPmf) (unit : ℕ) : UmbrellaPmf :=
  if unit = p.unit then p
  else
    { p with
      pmfs := p.pmfs.map (fun row => row.map (fun x => x * ECONV p.unit unit))
      av := p.av.map (fun x => x * ECONV p.unit unit)
      std := p.std.map (fun x => x * ECONV p.unit unit)
      kT := p.temperature * KB unit
      unit := unit }

/-- Method `UmbrellaPmf.write`, modelled at the level of the file content it
produces: a header carrying `ELABEL[self.unit]` in parentheses, and one row
`"%.3f %.4f %.4f" % (z, a, s)` per element of `zip(z, av, std)` (zip
truncates to the shortest list, as in Python). -/
def UmbrellaPmf.write (p : UmbrellaPmf) : String × List (ℚ × ℚ × ℚ) :=
  (ELABEL p.unit,
    List.zipWith (fun z par => (roundTo 3 z, roundTo 4 par.1, roundTo 4 par.2))
      p.z (List.zipWith (fun a s => (a, s)) p.av p.std))

/-- Method `UmbrellaPmf.read`, over the same file-content model: the unit is
looked up from the header label (`KeyError`, i.e. `none`, when unknown),
`kT` is set to `KB[self.unit]*300` with the hard-coded temperature 300, and
the three columns become `z`, `av`, `std`.  The Python object keeps
`simulations = None` after `read`; the unused `temperature`/`pmfs` fields are
set to defaults. -/
def UmbrellaPmf.read (file : String × List (ℚ × ℚ × ℚ)) : Option UmbrellaPmf :=
  match LABEL2UNIT file.1 with
  | none => none
  | some u =>
      some { z := file.2.map (fun r => r.1)
             av := file.2.map (fun r => r.2.1)
             std := file.2.map (fun r => r.2.2)
             pmfs := []
             unit := u
             kT := KB u * 300
             temperature := 0 }

/-- Method `UmbrellaPmf._trapz` (trapezoid integration with error
propagation), written as the Python `for i in range(1, len(x))` loop: the
integral accumulates `h*(av[i]+av[i-1])/2`; the variance accumulates
`w**2*stds[i]**2` with `w = 0.5*(x[0]+x[1])` before the loop,
`w = 1.0 - 0.5*(x[i]+x[i-1])` at the last node and
`w = 0.5*(x[i+1]-x[i-1])` at interior nodes; the pair
`(intsum, sqrt(var))` is returned. -/
def UmbrellaPmf.trapz (sq : ℚ → ℚ) (x av stds : List ℚ) : ℚ × ℚ :=
  let n := x.length
  let r := (List.range (n - 1)).foldl
    (fun acc k =>
      let i := k + 1
      let h := x.getD i 0 - x.getD (i - 1) 0
      let w := if i = n - 1 then 1 - (x.getD i 0 + x.getD (i - 1) 0) / 2
               else (x.getD (i + 1) 0 - x.getD (i - 1) 0) / 2
      (acc.1 + h * (av.getD i 0 + av.getD (i - 1) 0) / 2,
       acc.2 + w ^ 2 * (stds.getD i 0) ^ 2))
    (0, ((x.getD 0 0 + x.getD 1 0) / 2) ^ 2 * (stds.getD 0 0) ^ 2)
  (r.1, sq r.2)

/-- Library function `np.trapz(y, x)`. -/
def npTrapz (y x : List ℚ) : ℚ :=
  (List.range (x.length - 1)).foldl
    (fun acc k => acc + (x.getD (k + 1) 0 - x.getD k 0) * (y.getD (k + 1) 0 + y.getD k 0) / 2)
    0

/-- Method `UmbrellaPmf.standard_dg`: `expav = exp(-av/kT)`,
`expstd = |expav * (-std/kT)|`, `(bndint, bndstd) = _trapz(z, expav, expstd)`,
`freeint = np.trapz(ones, z)`, returning
`(-kT*log(bndint/freeint), |-kT*bndstd/bndint|)`. -/
def UmbrellaPmf.standard_dg (e l sq : ℚ → ℚ) (p : UmbrellaPmf) : ℚ × ℚ :=
  let expav := p.av.map (fun a => e (-a / p.kT))
  let expstd := List.zipWith (fun ea s => |ea * (-s / p.kT)|) expav p.std
  let bnd := UmbrellaPmf.trapz sq p.z expav expstd
  let freeint := npTrapz (p.z.map (fun _ => (1 : ℚ))) p.z
  (-p.kT * l (bnd.1 / freeint), |(-p.kT) * bnd.2 / bnd.1|)

/-- Modelled from the spec: the error-propagation weighting the spec (and
claim C5) describe for `standard_dg`, in which the variance at every
integration node, including the first and the last one, is weighted by half
the local trapezoid width (`(x[1]-x[0])/2` at the first node and
`(x[n-1]-x[n-2])/2` at the last node).  It differs from `UmbrellaPmf.trapz`
only in the two endpoint weights and exists solely to compare the spec's
words against the code. -/
def trapzSpecWeights (sq : ℚ → ℚ) (x av stds : List ℚ) : ℚ × ℚ :=
  let n := x.length
  let r := (List.range (n - 1)).foldl
    (fun acc k =>
      let i := k + 1
      let h := x.getD i 0 - x.getD (i - 1) 0
      let w := if i = n - 1 then (x.getD i 0 - x.getD (i - 1) 0) / 2
               else (x.getD (i + 1) 0 - x.getD (i - 1) 0) / 2
      (acc.1 + h * (av.getD i 0 + av.getD (i - 1) 0) / 2,
       acc.2 + w ^ 2 * (stds.getD i 0) ^ 2))
    (0, ((x.getD 1 0 - x.getD 0 0) / 2) ^ 2 * (stds.getD 0 0) ^ 2)
  (r.1, sq r.2)

/-- Modelled from the spec: `standard_dg` as claim C5 states it, i.e. with the
spec's endpoint weights (`trapzSpecWeights`) in the error propagation. -/
def standardDgClaim (e l sq : ℚ → ℚ) (p : UmbrellaPmf) : ℚ × ℚ :=
  let expav := p.av.map (fun a => e (-a / p.kT))
  let expstd := List.zipWith (fun ea s => |ea * (-s / p.kT)|) expav p.std
  let bnd := trapzSpecWeights sq p.z expav expstd
  let freeint := npTrapz (p.z.map (fun _ => (1 : ℚ))) p.z
  (-p.kT * l (bnd.1 / freeint), |(-p.kT) * bnd.2 / bnd.1|)

/-- State a `PyWham` object starts `iterate` from: window metadata and the
`histograms` / `bins` attributes copied from the simulations object
(`histograms` is `None` when they were never built). -/
structure PyWhamSys where
  centers : List ℚ
  weights : List ℚ
  kT : ℚ
  histograms : Option (List (List ℚ))
  bins : List ℚ
deriving DecidableEq

/-- Line `self.bins = (self.bins[1:]+self.bins[:-1])/2.0` of `PyWham.iterate`:
the midpoints of consecutive entries of `bins`. -/
def binMidpoints (bins : List ℚ) : List ℚ :=
  List.zipWith (fun a b => (a + b) / 2) bins.tail bins.dropLast

/-- Method `PyWham.__calc_bias`: `0.5*weights*(centers-coor)*(centers-coor)`
elementwise over the windows. -/
def calcBias (sys : PyWhamSys) (coor : ℚ) : List ℚ :=
  List.zipWith (fun c w => 1 / 2 * w * ((c - coor) * (c - coor))) sys.centers sys.weights

/-- Body of the `for i,coor in enumerate(self.bins)` loop of
`PyWham.__oneiter`, over the list `is` of remaining bin indices: for each bin,
`prob[i] = (sum of histogram columns) / (exp((Fold-bias)/kT)*nsamples).sum()`
and `F += exp(-bias/kT)*prob[i]`.  Returns the per-bin probabilities in order
together with the final accumulated `F`. -/
def oneiterLoop (e : ℚ → ℚ) (sys : PyWhamSys) (hs : List (List ℚ))
    (Fold ns : List ℚ) : List ℕ → List ℚ → List ℚ × List ℚ
  | [], F => ([], F)
  | i :: rest, F =>
      let coor := (binMidpoints sys.bins).getD i 0
      let bias := calcBias sys coor
      let num := (hs.map (fun h => h.getD i 0)).sum
      let denom := (List.zipWith (fun x y => x * y)
        (List.zipWith (fun f b => e ((f - b) / sys.kT)) Fold bias) ns).sum
      let p := num / denom
      let Fnext := List.zipWith (fun f b => f + e (-b / sys.kT) * p) F bias
      let r := oneiterLoop e sys hs Fold ns rest Fnext
      (p :: r.1, r.2)

/-- Method `PyWham.__oneiter` together with the `self.F = np.zeros(...)` reset
that precedes it in `iterate`: runs the bin loop from `F = 0`, then
`F = -kT*log(F)` and `F = F - F[-1]`.  Returns the new `(F, prob)` computed
from the previous bias free energies `Fold`. -/
def oneiter (e l : ℚ → ℚ) (sys : PyWhamSys) (hs : List (List ℚ))
    (Fold : List ℚ) : List ℚ × List ℚ :=
  let ns := hs.map List.sum
  let nbins := sys.bins.length - 1
  let r := oneiterLoop e sys hs Fold ns (List.range nbins) (List.replicate hs.length 0)
  let Flog := r.2.map (fun f => -sys.kT * l f)
  (Flog.map (fun f => f - Flog.getLastD 0), r.1)

/-- Sequence of bias free energies produced by successive WHAM iterations,
starting from `F = np.zeros(nwindows)`. -/
def FSeq (e l : ℚ → ℚ) (sys : PyWhamSys) (hs : List (List ℚ)) : ℕ → List ℚ
  | 0 => List.replicate hs.length 0
  | n + 1 => (oneiter e l sys hs (FSeq e l sys hs n)).1

/-- The `prob` attribute after `n` loop iterations: all-zero initially,
afterwards the probabilities of the latest `__oneiter`. -/
def probState (e l : ℚ → ℚ) (sys : PyWhamSys) (hs : List (List ℚ)) : ℕ → List ℚ
  | 0 => List.replicate (sys.bins.length - 1) 0
  | n + 1 => (oneiter e l sys hs (FSeq e l sys hs n)).2

/-- Methods `PyWham.__converged` / `PyWham.__maxerr`: `np.abs(F-Fold).max()`
(the fold with 0 coincides with numpy's max because the entries are absolute
values; numpy would raise on an empty array). -/
def maxAbsDiff (F Fold : List ℚ) : ℚ :=
  (List.zipWith (fun a b => |a - b|) F Fold).foldr max 0

/-- The `while self.niter == 0 or not self.__converged(tolerance)` loop of
`PyWham.iterate`, with the loop state — the attributes `F`, `__Fold`, `prob`,
`niter` — as separate arguments, plus explicit fuel: `none` means the fuel ran
out with the loop still running (the Python loop has no exit other than
convergence or the `niter == maxiter` break). -/
def iterLoop (e l : ℚ → ℚ) (sys : PyWhamSys) (hs : List (List ℚ)) (tol : ℚ)
    (maxiter : ℕ) : ℕ → List ℚ → List ℚ → List ℚ → ℕ →
    Option (List ℚ × List ℚ × List ℚ × ℕ)
  | 0, _, _, _, _ => none
  | fuel + 1, F, Fold, prob, niter =>
      if niter = 0 ∨ ¬ maxAbsDiff F Fold ≤ tol then
        let r := oneiter e l sys hs F
        if niter + 1 = maxiter then some (r.1, F, r.2, niter + 1)
        else iterLoop e l sys hs tol maxiter fuel r.1 F r.2 (niter + 1)
      else some (F, Fold, prob, niter)

/-- Final state of `PyWham.iterate`: bias free energies `F`, normalized
probabilities `prob`, shifted free energies `free`, iteration count, and the
`bins` attribute as the method leaves it (overwritten with the bin midpoints
near the top of `iterate`). -/
structure WhamResult where
  F : List ℚ
  prob : List ℚ
  free : List ℚ
  niter : ℕ
  bins : List ℚ
deriving DecidableEq

/-- `PyWham.iterate`'s code after the loop:
`prob = prob/prob.sum()`, `free = -kT*log(prob)`, `free = free - free[0]`. -/
def postLoop (l : ℚ → ℚ) (kT : ℚ) (bins F prob : List ℚ) (niter : ℕ) : WhamResult :=
  let probN := prob.map (fun p => p / prob.sum)
  let free0 := probN.map (fun p => -kT * l p)
  ⟨F, probN, free0.map (fun f => f - free0.headD 0), niter, bins⟩

/-- Method `PyWham.iterate` with explicit fuel for the while loop: returns
immediately when histograms were never built, otherwise runs the loop from
`F = Fold = 0`, `prob = 0`, `niter = 0` and applies the post-loop
normalization to whatever state the loop stopped in. -/
def iterateF (e l : ℚ → ℚ) (sys : PyWhamSys) (tol : ℚ) (maxiter fuel : ℕ) :
    Option WhamResult :=
  match sys.histograms with
  | none => none
  | some hs =>
      (iterLoop e l sys hs tol maxiter fuel (List.replicate hs.length 0)
          (List.replicate hs.length 0) (List.replicate (sys.bins.length - 1) 0) 0).map
        (fun st => postLoop l sys.kT (binMidpoints sys.bins) st.1 st.2.2.1 st.2.2.2)

/-- Proposition that `PyWham.iterate` terminates on the given inputs: some
finite fuel suffices for the while loop to exit. -/
def iterateTerminates (e l : ℚ → ℚ) (sys : PyWhamSys) (tol : ℚ) (maxiter : ℕ) : Prop :=
  ∃ fuel r, iterateF e l sys tol maxiter fuel = some r

/-- Number of iterations the loop performs: the first `n ≥ 1` whose iterate
satisfies the convergence test, capped by the `niter == maxiter` break. -/
def whamIterCount (e l : ℚ → ℚ) (sys : PyWhamSys) (hs : List (List ℚ))
    (tol : ℚ) (maxiter : ℕ) : ℕ :=
  Nat.find (p := fun n =>
    (1 ≤ n ∧ maxAbsDiff (FSeq e l sys hs n) (FSeq e l sys hs (n - 1)) ≤ tol) ∨ n = maxiter)
    ⟨maxiter, Or.inr rfl⟩

/-- Method `Wham.pmf` as inherited by `PyWham`: `iterate(verbose=False)` with
the default `tolerance=1E-5` and `maxiter=100000`, then
`z = (self.bins[0:-1]+self.bins[1:])/2.0` over the *current* `bins` attribute
(which `PyWham.iterate` has overwritten with the bin midpoints), returning
`(z, free)`. -/
def pyWhamPmf (e l : ℚ → ℚ) (sys : PyWhamSys) (fuel : ℕ) :
    Option (List ℚ × List ℚ) :=
  (iterateF e l sys (1 / 100000) 100000 fuel).map
    (fun r => (List.zipWith (fun a b => (a + b) / 2) r.bins.dropLast r.bins.tail, r.free))

/-- Concrete stand-in for `np.exp` used by witnesses: the constant 1 function
(positive everywhere and mapping 0 to 1, the only facts the theorems use). -/
def expOne : ℚ → ℚ := fun _ => 1

/-- Concrete stand-in for `np.log` used by witnesses: the constant 0 function
(which maps 1 to 0, the only fact the theorems use). -/
def logZero : ℚ → ℚ := fun _ => 0

/-- Concrete window collection with `bins` already set, for the C8 witness. -/
def simsBinsSet : UmbrellaSimulations :=
  ⟨300, KCALMOL, [0], [1], [[0]], none, some [0, 1]⟩

/-- Concrete ensemble for the C7 counterexample: current unit kcal/mol,
`av = std = [1]`, stored matrix `[[1]]`. -/
def pmfKcal : UmbrellaPmf := ⟨[0], [1], [1], [[1]], KCALMOL, 1, 300⟩

/-- Concrete ensemble for the C6 witness. -/
def pmfRT : UmbrellaPmf := ⟨[1/3, 2/3], [1/7, 2/7], [1/9, 2/9], [], KCALMOL, 1, 300⟩

/-- Concrete persisted file for the C10 witness. -/
def fileW : String × List (ℚ × ℚ × ℚ) := (ELABEL KCALMOL, [(0, 1, 2)])

/-- Ensemble state `read` produces from `fileW`. -/
def pmfFromFile : UmbrellaPmf := ⟨[0], [1], [2], [], KCALMOL, KB KCALMOL * 300, 0⟩

/-- Concrete square-root stand-in for the C9 witness (correct on the two
values it is asked about: `sqrt 4 = 2`, `sqrt 0 = 0`). -/
def sqOverlap : ℚ → ℚ := fun q => if q = 4 then 2 else 0

/-- Collection without histograms, for the C9 witness. -/
def simsNoHist : UmbrellaSimulations := ⟨300, KCALMOL, [0], [1], [[0]], none, none⟩

/-- Collection with two identical histograms capturing all samples, for the
C9 witness. -/
def simsIdent : UmbrellaSimulations :=
  ⟨300, KCALMOL, [0, 1], [1, 1], [[5, 6], [7, 8]], some [[2, 0], [2, 0]], some [0, 1, 2]⟩

/-- Collection with two disjoint histograms, for the C9 witness. -/
def simsDisj : UmbrellaSimulations :=
  ⟨300, KCALMOL, [0, 1], [1, 1], [[5, 6], [7, 8]], some [[1, 0], [0, 1]], some [0, 1, 2]⟩

/-- Concrete PMF for the C5 counterexample: `z = [1, 2]`, flat `av = 0`,
`std = [1, 0]`, `kT = 1`. -/
def pmfCE : UmbrellaPmf := ⟨[1, 2], [0, 0], [1, 0], [], KCALMOL, 1, 300⟩

/-- Concrete square root for the C5 counterexample, correct on the two values
it is applied to (`sqrt(9/4) = 3/2` and `sqrt(1/4) = 1/2`). -/
def sqCE : ℚ → ℚ := fun q => if q = 9 / 4 then 3 / 2 else if q = 1 / 4 then 1 / 2 else 0

/-- Concrete flat PMF with zero uncertainty for the C5 witness. -/
def pmfFlat : UmbrellaPmf := ⟨[0, 1], [0, 0], [0, 0], [], KCALMOL, 1, 300⟩

/-- Concrete square root for the C5 witness (`sqrt 0 = 0`). -/
def sqZero : ℚ → ℚ := fun _ => 0

/-- Concrete one-window, one-bin system for the C2 theorems. -/
def sysTiny : PyWhamSys := ⟨[0], [1], 1, some [[1]], [0, 1]⟩

/-- Concrete two-window, two-bin system for the C1 witness. -/
def sysC1 : PyWhamSys := ⟨[0, 1], [2, 3], 1, some [[1, 2], [3, 4]], [0, 1, 2]⟩

/-- Concrete one-window collection with 2 bins (3 edges `[0, 1, 2]`) for the
C4 bug demonstration. -/
def sysC4 : PyWhamSys := ⟨[0], [0], 1, some [[1, 1]], [0, 1, 2]⟩

/-- Helper: mapping `*c1` and then `*c2` over a list is the identity when
`c1 * c2 = 1`. -/
theorem map_mul_cancel (c1 c2 : ℚ) (h : c1 * c2 = 1) (xs : List ℚ) :
    (xs.map (fun x => x * c1)).map (fun x => x * c2) = xs := by
  induction xs with
  | nil => rfl
  | cons a t ih => simp only [List.map_cons, ih, List.cons.injEq, and_true, mul_assoc, h, mul_one]

/-- Helper: the same cancellation for a matrix stored as a list of rows. -/
theorem map_map_mul_cancel (c1 c2 : ℚ) (h : c1 * c2 = 1) (xss : List (List ℚ)) :
    ((xss.map (fun r => r.map (fun x => x * c1))).map (fun r => r.map (fun x => x * c2))) = xss := by
  induction xss with
  | nil => rfl
  | cons a t ih =>
      simp only [List.map_cons, ih, List.cons.injEq, and_true]
      exact map_mul_cancel c1 c2 h a

/-- Helper: the conversion factors of `ECONV` between the two supported units
are exact inverses in ℚ. -/
theorem econv_mul_inv (A B : ℕ) (hA : A = KJMOL ∨ A = KCALMOL)
    (hB : B = KJMOL ∨ B = KCALMOL) : ECONV A B * ECONV B A = 1 := by
  rcases hA with rfl | rfl <;> rcases hB with rfl | rfl <;>
    norm_num [ECONV, KJMOL, KCALMOL]

/-- Claim C8 (confirmed): once `bins` is set, `UmbrellaSimulations.make_bins`
is a no-op for any `nbins` and `boundaries`, leaving the whole object (in
particular `bins`) unchanged. -/
theorem make_bins_idempotent (sq : ℚ → ℚ) (s : UmbrellaSimulations) (nbins : ℕ)
    (boundaries : Option (ℚ × ℚ)) (b : List ℚ) (h : s.bins = some b) :
    UmbrellaSimulations.make_bins sq s nbins boundaries = s := by
  unfold UmbrellaSimulations.make_bins
  rw [h]

/-- Witness for C8 at a concrete collection. -/
theorem make_bins_idempotent_witness :
    simsBinsSet.bins = some [0, 1] ∧
    UmbrellaSimulations.make_bins (fun q => q) simsBinsSet 5 none = simsBinsSet :=
  ⟨rfl, make_bins_idempotent (fun q => q) simsBinsSet 5 none [0, 1] rfl⟩

/-- Claim C7 is false as stated: with A = kJ/mol and B = kcal/mol, the
sequence `change_unit(A); change_unit(B); change_unit(A)` applied to an
ensemble currently in kcal/mol does not restore `av` — it converts it to
kJ/mol, giving `av = [4.184]` instead of `[1]`. -/
theorem change_unit_aba_counterexample :
    (((pmfKcal.change_unit KJMOL).change_unit KCALMOL).change_unit KJMOL).av ≠
      pmfKcal.av := by
  norm_num [UmbrellaPmf.change_unit, pmfKcal, ECONV, KJMOL, KCALMOL, KB]

/-- Claim C7 (corrected): `change_unit` with the current unit changes nothing,
and the sequence `change_unit(A); change_unit(B); change_unit(A)` restores
`av`, `std` and the stored matrix exactly — provided `A` is the ensemble's
current unit (in general the sequence produces the original values converted
to unit `A`). -/
theorem change_unit_group_action (p : UmbrellaPmf) (A B : ℕ)
    (hA : A = KJMOL ∨ A = KCALMOL) (hB : B = KJMOL ∨ B = KCALMOL)
    (hcur : p.unit = A) :
    p.change_unit p.unit = p ∧
    (((p.change_unit A).change_unit B).change_unit A).av = p.av ∧
    (((p.change_unit A).change_unit B).change_unit A).std = p.std ∧
    (((p.change_unit A).change_unit B).change_unit A).pmfs = p.pmfs ∧
    (((p.change_unit A).change_unit B).change_unit A).unit = A := by
  subst hcur
  have hid : p.change_unit p.unit = p := by
    unfold UmbrellaPmf.change_unit
    rw [if_pos rfl]
  refine ⟨hid, ?_⟩
  rw [hid]
  by_cases hBA : B = p.unit
  · subst hBA
    rw [hid, hid]
    exact ⟨rfl, rfl, rfl, rfl⟩
  · have hmul : ECONV p.unit B * ECONV B p.unit = 1 := econv_mul_inv p.unit B hA hB
    have hq : p.change_unit B =
        { p with
          pmfs := p.pmfs.map (fun row => row.map (fun x => x * ECONV p.unit B))
          av := p.av.map (fun x => x * ECONV p.unit B)
          std := p.std.map (fun x => x * ECONV p.unit B)
          kT := p.temperature * KB B
          unit := B } := by
      unfold UmbrellaPmf.change_unit
      rw [if_neg hBA]
    rw [hq]
    have hq2 : ∀ q : UmbrellaPmf, q.unit = B → q.change_unit p.unit =
        { q with
          pmfs := q.pmfs.map (fun row => row.map (fun x => x * ECONV B p.unit))
          av := q.av.map (fun x => x * ECONV B p.unit)
          std := q.std.map (fun x => x * ECONV B p.unit)
          kT := q.temperature * KB p.unit
          unit := p.unit } := by
      intro q hqu
      unfold UmbrellaPmf.change_unit
      rw [if_neg (by rw [hqu]; exact fun hc => hBA hc.symm)]
      rw [hqu]
    rw [hq2 _ rfl]
    exact ⟨map_mul_cancel _ _ hmul p.av, map_mul_cancel _ _ hmul p.std,
      map_map_mul_cancel _ _ hmul p.pmfs, rfl⟩

/-- Witness for the corrected C7 at a concrete ensemble in kcal/mol with
`A` = kcal/mol (the current unit) and `B` = kJ/mol. -/
theorem change_unit_group_action_witness :
    pmfKcal.unit = KCALMOL ∧
    (pmfKcal.change_unit pmfKcal.unit = pmfKcal ∧
      (((pmfKcal.change_unit KCALMOL).change_unit KJMOL).change_unit KCALMOL).av = pmfKcal.av ∧
      (((pmfKcal.change_unit KCALMOL).change_unit KJMOL).change_unit KCALMOL).std = pmfKcal.std ∧
      (((pmfKcal.change_unit KCALMOL).change_unit KJMOL).change_unit KCALMOL).pmfs = pmfKcal.pmfs ∧
      (((pmfKcal.change_unit KCALMOL).change_unit KJMOL).change_unit KCALMOL).unit = KCALMOL) :=
  ⟨rfl, change_unit_group_action pmfKcal KCALMOL KJMOL (Or.inr rfl) (Or.inl rfl) rfl⟩

/-- Helper: the three column projections of the rows `write` produces are the
rounded `z`, `av`, `std` arrays, when the three arrays have equal length. -/
theorem zip3_proj (f g : ℚ → ℚ) : ∀ (z av st : List ℚ), av.length = z.length →
    st.length = z.length →
    (List.zipWith (fun zz par => (f zz, g par.1, g par.2)) z
        (List.zipWith (fun a s => (a, s)) av st)).map (fun r => r.1) = z.map f ∧
    (List.zipWith (fun zz par => (f zz, g par.1, g par.2)) z
        (List.zipWith (fun a s => (a, s)) av st)).map (fun r => r.2.1) = av.map g ∧
    (List.zipWith (fun zz par => (f zz, g par.1, g par.2)) z
        (List.zipWith (fun a s => (a, s)) av st)).map (fun r => r.2.2) = st.map g
  | [], av, st, ha, hs => by
      obtain rfl : av = [] := List.length_eq_zero.mp (by simpa using ha)
      obtain rfl : st = [] := List.length_eq_zero.mp (by simpa using hs)
      simp
  | zz :: zt, [], st, ha, _ => by simp at ha
  | zz :: zt, a :: avt, [], _, hs => by simp at hs
  | zz :: zt, a :: avt, s :: stt, ha, hs => by
      obtain ⟨h1, h2, h3⟩ := zip3_proj f g zt avt stt (by simpa using ha) (by simpa using hs)
      simp [h1, h2, h3]

/-- Helper: `read` on a file whose header label is a known unit. -/
theorem read_some (file : String × List (ℚ × ℚ × ℚ)) (u : ℕ)
    (h : LABEL2UNIT file.1 = some u) :
    UmbrellaPmf.read file =
      some { z := file.2.map (fun r => r.1), av := file.2.map (fun r => r.2.1),
             std := file.2.map (fun r => r.2.2), pmfs := [], unit := u,
             kT := KB u * 300, temperature := 0 } := by
  unfold UmbrellaPmf.read
  rw [h]

/-- Helper: the label tables invert each other on the two supported units. -/
theorem label_roundtrip (u : ℕ) (hu : u = KJMOL ∨ u = KCALMOL) :
    LABEL2UNIT (ELABEL u) = some u := by
  rcases hu with rfl | rfl <;> simp [ELABEL, LABEL2UNIT, KJMOL, KCALMOL]

/-- Claim C6 (confirmed): writing an ensemble and reading the file back
reproduces the unit and reproduces `z`, `av`, `std` at the written precision —
`z` as the written 3-decimal values and `av`, `std` as the written 4-decimal
values. -/
theorem write_read_roundtrip (p : UmbrellaPmf)
    (hu : p.unit = KJMOL ∨ p.unit = KCALMOL)
    (ha : p.av.length = p.z.length) (hs2 : p.std.length = p.z.length) :
    UmbrellaPmf.read (UmbrellaPmf.write p) =
      some { z := p.z.map (roundTo 3), av := p.av.map (roundTo 4),
             std := p.std.map (roundTo 4), pmfs := [], unit := p.unit,
             kT := KB p.unit * 300, temperature := 0 } := by
  have hlab : LABEL2UNIT (UmbrellaPmf.write p).1 = some p.unit :=
    label_roundtrip p.unit hu
  rw [read_some _ p.unit hlab]
  obtain ⟨h1, h2, h3⟩ := zip3_proj (roundTo 3) (roundTo 4) p.z p.av p.std ha hs2
  simp [UmbrellaPmf.write, h1, h2, h3]

/-- Witness for C6 at a concrete ensemble (kcal/mol, non-terminating decimal
values which the written precision truncates). -/
theorem write_read_roundtrip_witness :
    (pmfRT.unit = KJMOL ∨ pmfRT.unit = KCALMOL) ∧
    UmbrellaPmf.read (UmbrellaPmf.write pmfRT) =
      some { z := pmfRT.z.map (roundTo 3), av := pmfRT.av.map (roundTo 4),
             std := pmfRT.std.map (roundTo 4), pmfs := [], unit := pmfRT.unit,
             kT := KB pmfRT.unit * 300, temperature := 0 } :=
  ⟨Or.inr rfl, write_read_roundtrip pmfRT (Or.inr rfl) rfl rfl⟩

/-- Claim C10 (confirmed): any ensemble produced by `read` has
`kT = KB[unit] * 300` — the temperature is hard-coded to 300 and no
temperature information is present in the file — and `standard_dg` on such an
ensemble therefore computes with that 300 K thermal energy. -/
theorem read_sets_kT_300 (file : String × List (ℚ × ℚ × ℚ)) (q : UmbrellaPmf)
    (h : UmbrellaPmf.read file = some q) :
    q.kT = KB q.unit * 300 ∧
    ∀ e l sq : ℚ → ℚ, UmbrellaPmf.standard_dg e l sq q =
      UmbrellaPmf.standard_dg e l sq { q with kT := KB q.unit * 300 } := by
  cases hl : LABEL2UNIT file.1 with
  | none =>
      unfold UmbrellaPmf.read at h
      rw [hl] at h
      exact absurd h (by simp)
  | some u =>
      unfold UmbrellaPmf.read at h
      rw [hl] at h
      obtain rfl : _ = q := Option.some.inj h
      exact ⟨rfl, fun e l sq => rfl⟩

/-- Witness for C10 at a concrete file. -/
theorem read_sets_kT_300_witness :
    UmbrellaPmf.read fileW = some pmfFromFile ∧
    (pmfFromFile.kT = KB pmfFromFile.unit * 300 ∧
      ∀ e l sq : ℚ → ℚ, UmbrellaPmf.standard_dg e l sq pmfFromFile =
        UmbrellaPmf.standard_dg e l sq { pmfFromFile with kT := KB pmfFromFile.unit * 300 }) :=
  ⟨rfl, read_sets_kT_300 fileW pmfFromFile rfl⟩

/-- Helper: zipping a list's `dropLast` with its `tail` pairs adjacent
elements, indexed over `range (length - 1)`. -/
theorem zip_adjacent {α β : Type} (f : α → α → β) (d : α) : ∀ l : List α,
    List.zipWith f l.dropLast l.tail =
      (List.range (l.length - 1)).map (fun i => f (l.getD i d) (l.getD (i + 1) d))
  | [] => rfl
  | [_] => rfl
  | a :: b :: t => by
      have ih := zip_adjacent f d (b :: t)
      show f a b :: List.zipWith f (b :: t).dropLast (b :: t).tail = _
      rw [ih]
      have hlen : (a :: b :: t).length - 1 = ((b :: t).length - 1) + 1 := by simp
      rw [hlen, List.range_succ_eq_map]
      simp [List.map_map, Function.comp_def]

/-- Helper: `zipWith` of two maps over a common list. -/
theorem zipWith_map_same {α β γ δ : Type} (g : β → γ → δ) (f1 : α → β) (f2 : α → γ) :
    ∀ l : List α, List.zipWith g (l.map f1) (l.map f2) = l.map (fun x => g (f1 x) (f2 x))
  | [] => rfl
  | a :: t => by
      show g (f1 a) (f2 a) :: List.zipWith g (t.map f1) (t.map f2) = _
      rw [zipWith_map_same g f1 f2 t]
      rfl

/-- Helper: the sum of an elementwise `zipWith` as a `Finset.range` sum. -/
theorem sum_zipWith (f : ℚ → ℚ → ℚ) (l1 : List ℚ) : ∀ (l2 : List ℚ) (n : ℕ),
    l1.length = n → l2.length = n →
    (List.zipWith f l1 l2).sum = ∑ i in Finset.range n, f (l1.getD i 0) (l2.getD i 0) := by
  induction l1 with
  | nil =>
      intro l2 n h1 _
      obtain rfl : n = 0 := by simpa using h1.symm
      simp
  | cons a t ih =>
      intro l2 n h1 h2
      cases l2 with
      | nil =>
          rw [List.length_nil] at h2
          rw [List.length_cons] at h1
          omega
      | cons b t2 =>
          obtain ⟨m, rfl⟩ : ∃ m, n = m + 1 := by
            rw [List.length_cons] at h1
            exact ⟨t.length, h1.symm⟩
          rw [Finset.sum_range_succ']
          simp only [List.getD_cons_succ, List.getD_cons_zero]
          rw [← ih t2 m (by simpa using h1) (by simpa using h2)]
          simp [add_comm]

/-- Helper: in-bounds `getD` values are members of the list. -/
theorem getD_mem_of_lt {α : Type} (l : List α) (d : α) (i : ℕ) (h : i < l.length) :
    l.getD i d ∈ l := by
  rw [List.getD_eq_getElem l d h]
  exact List.getElem_mem h

/-- Helper: zipping a list with itself applies the function diagonally. -/
theorem zipWith_self_eq_map {α β : Type} (f : α → α → β) : ∀ l : List α,
    List.zipWith f l l = l.map (fun a => f a a)
  | [] => rfl
  | a :: t => by
      show f a a :: List.zipWith f t t = _
      rw [zipWith_self_eq_map f t]
      rfl

/-- Helper: a map that fixes every member is the identity. -/
theorem map_eq_self_of_mem {α : Type} (f : α → α) : ∀ l : List α,
    (∀ x ∈ l, f x = x) → l.map f = l
  | [], _ => rfl
  | a :: t, h => by
      rw [List.map_cons, h a (List.mem_cons_self a t),
        map_eq_self_of_mem f t (fun x hx => h x (List.mem_cons_of_mem a hx))]

/-- Helper: the summed elementwise `sqrt(h1*h2)` vanishes when the two
histograms have no common support (all products zero) and `sqrt 0 = 0`. -/
theorem zipWith_sqrt_zero (sq : ℚ → ℚ) (hsq : sq 0 = 0) : ∀ h1 h2 : List ℚ,
    (∀ i, h1.getD i 0 * h2.getD i 0 = 0) →
    (List.zipWith (fun a b => sq (a * b)) h1 h2).sum = 0
  | [], _, _ => by simp
  | _ :: _, [], _ => by simp
  | a :: t1, b :: t2, h => by
      have h0 := h 0
      simp only [List.getD_cons_zero] at h0
      show (sq (a * b) :: List.zipWith (fun a b => sq (a * b)) t1 t2).sum = 0
      rw [List.sum_cons, h0, hsq,
        zipWith_sqrt_zero sq hsq t1 t2 (fun i => by simpa using h (i + 1))]
      simp

/-- Claim C9 (confirmed): `pairwise_overlap` yields nothing when histograms
were never built; otherwise it returns, for every adjacent window pair
`(i, i+1)`, `(Σ_bins sqrt(h_i*h_{i+1})) / sqrt(n_i*n_{i+1}) * 100` with `n`
the window sample counts; that quantity is exactly 100 for two identical
histograms whose bins capture all samples, and exactly 0 for two histograms
with disjoint support. -/
theorem pairwise_overlap_spec (sq : ℚ → ℚ) (s : UmbrellaSimulations) :
    (s.histograms = none → s.pairwise_overlap sq = none) ∧
    (∀ hs L, s.histograms = some hs → s.samples.length = hs.length →
      (∀ h ∈ hs, h.length = L) →
      s.pairwise_overlap sq = some ((List.range (hs.length - 1)).map (fun i =>
        (∑ b in Finset.range L, sq ((hs.getD i []).getD b 0 * (hs.getD (i + 1) []).getD b 0)) /
          sq (((s.samples.getD i []).length : ℚ) * ((s.samples.getD (i + 1) []).length : ℚ)) *
          100))) ∧
    (∀ h l1 l2, s.histograms = some [h, h] → s.samples = [l1, l2] →
      (∀ x ∈ h, sq (x * x) = x) →
      sq ((l1.length : ℚ) * (l2.length : ℚ)) = (l1.length : ℚ) →
      h.sum = (l1.length : ℚ) → (l1.length : ℚ) ≠ 0 →
      s.pairwise_overlap sq = some [100]) ∧
    (∀ h1 h2 l1 l2, s.histograms = some [h1, h2] → s.samples = [l1, l2] →
      (∀ i, h1.getD i 0 * h2.getD i 0 = 0) → sq 0 = 0 →
      s.pairwise_overlap sq = some [0]) := by
  refine ⟨?_, ?_, ?_, ?_⟩
  · intro h
    unfold UmbrellaSimulations.pairwise_overlap
    rw [h]
  · intro hs L hh hsl hlen
    unfold UmbrellaSimulations.pairwise_overlap
    rw [hh]
    simp only []
    rw [zip_adjacent (fun h1 h2 => List.zipWith (fun a b => sq (a * b)) h1 h2) ([] : List ℚ) hs,
      zip_adjacent (fun s1 s2 => sq ((s1.length : ℚ) * (s2.length : ℚ))) ([] : List ℚ) s.samples,
      hsl, zipWith_map_same]
    refine congrArg some (List.map_congr_left ?_)
    intro i hi
    have hi2 : i + 1 < hs.length := by
      have := List.mem_range.mp hi
      omega
    have hi1 : i < hs.length := by omega
    rw [sum_zipWith (fun a b => sq (a * b)) (hs.getD i []) (hs.getD (i + 1) []) L
      (hlen _ (getD_mem_of_lt hs [] i hi1)) (hlen _ (getD_mem_of_lt hs [] (i + 1) hi2))]
  · intro h l1 l2 hh hsam hdiag hn hsum hne
    unfold UmbrellaSimulations.pairwise_overlap
    rw [hh, hsam]
    show some [(List.zipWith (fun a b => sq (a * b)) h h).sum /
      sq ((l1.length : ℚ) * (l2.length : ℚ)) * 100] = some [100]
    rw [zipWith_self_eq_map, map_eq_self_of_mem _ h hdiag, hsum, hn,
      div_self hne, one_mul]
  · intro h1 h2 l1 l2 hh hsam hdisj hsq
    unfold UmbrellaSimulations.pairwise_overlap
    rw [hh, hsam]
    show some [(List.zipWith (fun a b => sq (a * b)) h1 h2).sum /
      sq ((l1.length : ℚ) * (l2.length : ℚ)) * 100] = some [0]
    rw [zipWith_sqrt_zero sq hsq h1 h2 hdisj, zero_div, zero_mul]

/-- Witness for C9: no result without histograms, exactly 100 for identical
full-capture histograms, exactly 0 for disjoint histograms. -/
theorem pairwise_overlap_spec_witness :
    UmbrellaSimulations.pairwise_overlap sqOverlap simsNoHist = none ∧
    UmbrellaSimulations.pairwise_overlap sqOverlap simsIdent = some [100] ∧
    UmbrellaSimulations.pairwise_overlap sqOverlap simsDisj = some [0] := by
  refine ⟨(pairwise_overlap_spec sqOverlap simsNoHist).1 rfl,
    (pairwise_overlap_spec sqOverlap simsIdent).2.2.1 [2, 0] [5, 6] [7, 8] rfl rfl
      ?_ ?_ ?_ ?_,
    (pairwise_overlap_spec sqOverlap simsDisj).2.2.2 [1, 0] [0, 1] [5, 6] [7, 8] rfl rfl
      ?_ ?_⟩
  · intro x hx
    rcases List.mem_cons.mp hx with rfl | hx2
    · norm_num [sqOverlap]
    · rcases List.mem_cons.mp hx2 with rfl | hx3
      · norm_num [sqOverlap]
      · simp at hx3
  · norm_num [sqOverlap]
  · norm_num
  · norm_num
  · intro i
    rcases i with _ | _ | i <;> simp
  · norm_num [sqOverlap]

/-- Helper: a `foldl` over `range` that only accumulates is the initial value
plus a `Finset.range` sum. -/
theorem foldl_add_range (g : ℕ → ℚ) (a : ℚ) (m : ℕ) :
    (List.range m).foldl (fun acc k => acc + g k) a = a + ∑ k in Finset.range m, g k := by
  induction m with
  | zero => simp
  | succ n ih =>
      rw [List.range_succ, List.foldl_append, ih, Finset.sum_range_succ]
      simp [add_assoc]

/-- Helper: the pair version of `foldl_add_range`, matching the accumulator of
`UmbrellaPmf.trapz`. -/
theorem foldl_pair_add_range (g1 g2 : ℕ → ℚ) (a b : ℚ) (m : ℕ) :
    (List.range m).foldl (fun acc k => (acc.1 + g1 k, acc.2 + g2 k)) (a, b) =
      (a + ∑ k in Finset.range m, g1 k, b + ∑ k in Finset.range m, g2 k) := by
  induction m with
  | zero => simp
  | succ n ih =>
      rw [List.range_succ, List.foldl_append, ih, Finset.sum_range_succ, Finset.sum_range_succ]
      simp [add_assoc]

/-- Helper: in-bounds `getD` through a `map`. -/
theorem getD_map_lt {α β : Type} (f : α → β) (l : List α) (d : β) (d2 : α) (j : ℕ)
    (h : j < l.length) : (l.map f).getD j d = f (l.getD j d2) := by
  rw [List.getD_eq_getElem (l.map f) d (by simpa using h), List.getD_eq_getElem l d2 h,
    List.getElem_map]

/-- Helper: in-bounds `getD` through a `zipWith`. -/
theorem getD_zipWith_lt (f : ℚ → ℚ → ℚ) (l1 l2 : List ℚ) (j : ℕ)
    (h1 : j < l1.length) (h2 : j < l2.length) :
    (List.zipWith f l1 l2).getD j 0 = f (l1.getD j 0) (l2.getD j 0) := by
  rw [List.getD_eq_getElem (List.zipWith f l1 l2) 0
      (by rw [List.length_zipWith]; omega),
    List.getD_eq_getElem l1 0 h1, List.getD_eq_getElem l2 0 h2, List.getElem_zipWith]

/-- Helper: closed form of the `_trapz` loop — the integral is the usual
trapezoid sum and the accumulated variance carries the code's node weights:
`(x[0]+x[1])/2` at the first node, `1-(x[i]+x[i-1])/2` at the last node and
`(x[i+1]-x[i-1])/2` at interior nodes. -/
theorem trapz_closed_form (sq : ℚ → ℚ) (x av stds : List ℚ) :
    UmbrellaPmf.trapz sq x av stds =
      (∑ k in Finset.range (x.length - 1),
        (x.getD (k + 1) 0 - x.getD k 0) * (av.getD (k + 1) 0 + av.getD k 0) / 2,
       sq (((x.getD 0 0 + x.getD 1 0) / 2) ^ 2 * (stds.getD 0 0) ^ 2 +
        ∑ k in Finset.range (x.length - 1),
          (if k + 1 = x.length - 1 then 1 - (x.getD (k + 1) 0 + x.getD k 0) / 2
           else (x.getD (k + 2) 0 - x.getD k 0) / 2) ^ 2 * (stds.getD (k + 1) 0) ^ 2)) := by
  have h := foldl_pair_add_range
    (fun k => (x.getD (k + 1) 0 - x.getD k 0) * (av.getD (k + 1) 0 + av.getD k 0) / 2)
    (fun k => (if k + 1 = x.length - 1 then 1 - (x.getD (k + 1) 0 + x.getD k 0) / 2
       else (x.getD (k + 2) 0 - x.getD k 0) / 2) ^ 2 * (stds.getD (k + 1) 0) ^ 2)
    0 (((x.getD 0 0 + x.getD 1 0) / 2) ^ 2 * (stds.getD 0 0) ^ 2) (x.length - 1)
  have h0 : UmbrellaPmf.trapz sq x av stds =
      (((List.range (x.length - 1)).foldl
          (fun acc k => (acc.1 +
            (x.getD (k + 1) 0 - x.getD k 0) * (av.getD (k + 1) 0 + av.getD k 0) / 2,
            acc.2 +
            (if k + 1 = x.length - 1 then 1 - (x.getD (k + 1) 0 + x.getD k 0) / 2
             else (x.getD (k + 2) 0 - x.getD k 0) / 2) ^ 2 * (stds.getD (k + 1) 0) ^ 2))
          (0, ((x.getD 0 0 + x.getD 1 0) / 2) ^ 2 * (stds.getD 0 0) ^ 2)).1,
       sq (((List.range (x.length - 1)).foldl
          (fun acc k => (acc.1 +
            (x.getD (k + 1) 0 - x.getD k 0) * (av.getD (k + 1) 0 + av.getD k 0) / 2,
            acc.2 +
            (if k + 1 = x.length - 1 then 1 - (x.getD (k + 1) 0 + x.getD k 0) / 2
             else (x.getD (k + 2) 0 - x.getD k 0) / 2) ^ 2 * (stds.getD (k + 1) 0) ^ 2))
          (0, ((x.getD 0 0 + x.getD 1 0) / 2) ^ 2 * (stds.getD 0 0) ^ 2)).2)) := rfl
  rw [h0, h]
  rw [zero_add]

/-- Helper: `np.trapz(ones, z)` telescopes to `z[-1] - z[0]`. -/
theorem npTrapz_ones (z : List ℚ) :
    npTrapz (z.map (fun _ => (1 : ℚ))) z = z.getD (z.length - 1) 0 - z.getD 0 0 := by
  have h0 : npTrapz (z.map (fun _ => (1 : ℚ))) z =
      (List.range (z.length - 1)).foldl
        (fun acc k => acc + (z.getD (k + 1) 0 - z.getD k 0) *
          ((z.map (fun _ => (1 : ℚ))).getD (k + 1) 0 + (z.map (fun _ => (1 : ℚ))).getD k 0) / 2)
        0 := rfl
  rw [h0, foldl_add_range, zero_add]
  rw [Finset.sum_congr rfl (fun k hk => ?_), Finset.sum_range_sub (fun k => z.getD k 0) (z.length - 1)]
  have hk1 : k < z.length - 1 := Finset.mem_range.mp hk
  have hk2 : k + 1 < z.length := by omega
  have hk3 : k < z.length := by omega
  rw [getD_map_lt (fun _ => (1 : ℚ)) z 0 0 (k + 1) hk2, getD_map_lt (fun _ => (1 : ℚ)) z 0 0 k hk3]
  ring

/-- Claim C5 (corrected): `standard_dg` does return
`(-kT*ln(trapz(exp(-av/kT))/trapz(1)), |-kT*bndstd/bndint|)` with linear error
propagation through the trapezoid rule, the division and the logarithm, and it
does return `(0, 0)` on a flat zero PMF with zero std; but the variance
weights at the two boundary nodes are *not* half the local trapezoid width:
the first node is weighted by `(z[0]+z[1])/2` (half the coordinate *sum*) and
the last node by `1 - (z[-1]+z[-2])/2`, as exhibited in the closed form
below (interior nodes do carry half the local width `(z[k+2]-z[k])/2`). -/
theorem standard_dg_corrected (e l sq : ℚ → ℚ) (p : UmbrellaPmf)
    (hn : 2 ≤ p.z.length) (ha : p.av.length = p.z.length)
    (hs2 : p.std.length = p.z.length) :
    (UmbrellaPmf.standard_dg e l sq p =
      (-p.kT * l ((∑ k in Finset.range (p.z.length - 1),
          (p.z.getD (k + 1) 0 - p.z.getD k 0) *
            (e (-(p.av.getD (k + 1) 0) / p.kT) + e (-(p.av.getD k 0) / p.kT)) / 2) /
        (p.z.getD (p.z.length - 1) 0 - p.z.getD 0 0)),
       |(-p.kT) * sq (((p.z.getD 0 0 + p.z.getD 1 0) / 2) ^ 2 *
            |e (-(p.av.getD 0 0) / p.kT) * (-(p.std.getD 0 0) / p.kT)| ^ 2 +
          ∑ k in Finset.range (p.z.length - 1),
            (if k + 1 = p.z.length - 1 then 1 - (p.z.getD (k + 1) 0 + p.z.getD k 0) / 2
             else (p.z.getD (k + 2) 0 - p.z.getD k 0) / 2) ^ 2 *
              |e (-(p.av.getD (k + 1) 0) / p.kT) * (-(p.std.getD (k + 1) 0) / p.kT)| ^ 2) /
          (∑ k in Finset.range (p.z.length - 1),
            (p.z.getD (k + 1) 0 - p.z.getD k 0) *
              (e (-(p.av.getD (k + 1) 0) / p.kT) + e (-(p.av.getD k 0) / p.kT)) / 2)|)) ∧
    ((∀ a ∈ p.av, a = 0) → (∀ s3 ∈ p.std, s3 = 0) → e 0 = 1 → l 1 = 0 → sq 0 = 0 →
      p.z.getD (p.z.length - 1) 0 ≠ p.z.getD 0 0 →
      UmbrellaPmf.standard_dg e l sq p = (0, 0)) := by
  have hlexp : (p.av.map (fun a => e (-a / p.kT))).length = p.z.length := by
    rw [List.length_map, ha]
  have hlstd : (List.zipWith (fun ea s3 => |ea * (-s3 / p.kT)|)
      (p.av.map (fun a => e (-a / p.kT))) p.std).length = p.z.length := by
    rw [List.length_zipWith, hlexp, hs2, min_self]
  have hsd : UmbrellaPmf.standard_dg e l sq p =
      (-p.kT * l ((UmbrellaPmf.trapz sq p.z (p.av.map (fun a => e (-a / p.kT)))
          (List.zipWith (fun ea s3 => |ea * (-s3 / p.kT)|)
            (p.av.map (fun a => e (-a / p.kT))) p.std)).1 /
        npTrapz (p.z.map (fun _ => (1 : ℚ))) p.z),
       |(-p.kT) * (UmbrellaPmf.trapz sq p.z (p.av.map (fun a => e (-a / p.kT)))
          (List.zipWith (fun ea s3 => |ea * (-s3 / p.kT)|)
            (p.av.map (fun a => e (-a / p.kT))) p.std)).2 /
        (UmbrellaPmf.trapz sq p.z (p.av.map (fun a => e (-a / p.kT)))
          (List.zipWith (fun ea s3 => |ea * (-s3 / p.kT)|)
            (p.av.map (fun a => e (-a / p.kT))) p.std)).1|) := rfl
  have hB : (UmbrellaPmf.trapz sq p.z (p.av.map (fun a => e (-a / p.kT)))
      (List.zipWith (fun ea s3 => |ea * (-s3 / p.kT)|)
        (p.av.map (fun a => e (-a / p.kT))) p.std)).1 =
      ∑ k in Finset.range (p.z.length - 1),
        (p.z.getD (k + 1) 0 - p.z.getD k 0) *
          (e (-(p.av.getD (k + 1) 0) / p.kT) + e (-(p.av.getD k 0) / p.kT)) / 2 := by
    rw [trapz_closed_form]
    dsimp only
    refine Finset.sum_congr rfl ?_
    intro k hk
    have hk1 : k < p.z.length - 1 := Finset.mem_range.mp hk
    have hk2 : k + 1 < p.av.length := by omega
    have hk3 : k < p.av.length := by omega
    rw [getD_map_lt (fun a => e (-a / p.kT)) p.av 0 0 (k + 1) hk2,
      getD_map_lt (fun a => e (-a / p.kT)) p.av 0 0 k hk3]
  have hes : ∀ j, j < p.z.length →
      (List.zipWith (fun ea s3 => |ea * (-s3 / p.kT)|)
        (p.av.map (fun a => e (-a / p.kT))) p.std).getD j 0 =
      |e (-(p.av.getD j 0) / p.kT) * (-(p.std.getD j 0) / p.kT)| := by
    intro j hj
    rw [getD_zipWith_lt _ _ _ j (by omega) (by omega),
      getD_map_lt (fun a => e (-a / p.kT)) p.av 0 0 j (by omega)]
  have hW : (UmbrellaPmf.trapz sq p.z (p.av.map (fun a => e (-a / p.kT)))
      (List.zipWith (fun ea s3 => |ea * (-s3 / p.kT)|)
        (p.av.map (fun a => e (-a / p.kT))) p.std)).2 =
      sq (((p.z.getD 0 0 + p.z.getD 1 0) / 2) ^ 2 *
          |e (-(p.av.getD 0 0) / p.kT) * (-(p.std.getD 0 0) / p.kT)| ^ 2 +
        ∑ k in Finset.range (p.z.length - 1),
          (if k + 1 = p.z.length - 1 then 1 - (p.z.getD (k + 1) 0 + p.z.getD k 0) / 2
           else (p.z.getD (k + 2) 0 - p.z.getD k 0) / 2) ^ 2 *
            |e (-(p.av.getD (k + 1) 0) / p.kT) * (-(p.std.getD (k + 1) 0) / p.kT)| ^ 2) := by
    rw [trapz_closed_form]
    dsimp only
    refine congrArg sq ?_
    rw [hes 0 (by omega)]
    refine congrArg (fun t => ((p.z.getD 0 0 + p.z.getD 1 0) / 2) ^ 2 *
      |e (-(p.av.getD 0 0) / p.kT) * (-(p.std.getD 0 0) / p.kT)| ^ 2 + t) ?_
    refine Finset.sum_congr rfl ?_
    intro k hk
    have hk1 : k < p.z.length - 1 := Finset.mem_range.mp hk
    rw [hes (k + 1) (by omega)]
  have main : UmbrellaPmf.standard_dg e l sq p =
      (-p.kT * l ((∑ k in Finset.range (p.z.length - 1),
          (p.z.getD (k + 1) 0 - p.z.getD k 0) *
            (e (-(p.av.getD (k + 1) 0) / p.kT) + e (-(p.av.getD k 0) / p.kT)) / 2) /
        (p.z.getD (p.z.length - 1) 0 - p.z.getD 0 0)),
       |(-p.kT) * sq (((p.z.getD 0 0 + p.z.getD 1 0) / 2) ^ 2 *
            |e (-(p.av.getD 0 0) / p.kT) * (-(p.std.getD 0 0) / p.kT)| ^ 2 +
          ∑ k in Finset.range (p.z.length - 1),
            (if k + 1 = p.z.length - 1 then 1 - (p.z.getD (k + 1) 0 + p.z.getD k 0) / 2
             else (p.z.getD (k + 2) 0 - p.z.getD k 0) / 2) ^ 2 *
              |e (-(p.av.getD (k + 1) 0) / p.kT) * (-(p.std.getD (k + 1) 0) / p.kT)| ^ 2) /
          (∑ k in Finset.range (p.z.length - 1),
            (p.z.getD (k + 1) 0 - p.z.getD k 0) *
              (e (-(p.av.getD (k + 1) 0) / p.kT) + e (-(p.av.getD k 0) / p.kT)) / 2)|) := by
    rw [hsd, hB, hW, npTrapz_ones]
  refine ⟨main, ?_⟩
  intro hav hstd he hl hsq hz
  have hav2 : ∀ j, j < p.av.length → p.av.getD j 0 = 0 := by
    intro j hj
    rw [List.getD_eq_getElem p.av 0 hj]
    exact hav _ (List.getElem_mem hj)
  have hstd2 : ∀ j, j < p.std.length → p.std.getD j 0 = 0 := by
    intro j hj
    rw [List.getD_eq_getElem p.std 0 hj]
    exact hstd _ (List.getElem_mem hj)
  rw [main]
  have hterm : ∀ k ∈ Finset.range (p.z.length - 1),
      (p.z.getD (k + 1) 0 - p.z.getD k 0) *
        (e (-(p.av.getD (k + 1) 0) / p.kT) + e (-(p.av.getD k 0) / p.kT)) / 2 =
      p.z.getD (k + 1) 0 - p.z.getD k 0 := by
    intro k hk
    have hk1 : k < p.z.length - 1 := Finset.mem_range.mp hk
    rw [hav2 (k + 1) (by omega), hav2 k (by omega)]
    rw [show (-(0 : ℚ) / p.kT) = 0 by ring, he]
    ring
  have hBsum : (∑ k in Finset.range (p.z.length - 1),
      (p.z.getD (k + 1) 0 - p.z.getD k 0) *
        (e (-(p.av.getD (k + 1) 0) / p.kT) + e (-(p.av.getD k 0) / p.kT)) / 2) =
      p.z.getD (p.z.length - 1) 0 - p.z.getD 0 0 := by
    rw [Finset.sum_congr rfl hterm,
      Finset.sum_range_sub (fun k => p.z.getD k 0) (p.z.length - 1)]
  have hwterm : ∀ k ∈ Finset.range (p.z.length - 1),
      (if k + 1 = p.z.length - 1 then 1 - (p.z.getD (k + 1) 0 + p.z.getD k 0) / 2
       else (p.z.getD (k + 2) 0 - p.z.getD k 0) / 2) ^ 2 *
        |e (-(p.av.getD (k + 1) 0) / p.kT) * (-(p.std.getD (k + 1) 0) / p.kT)| ^ 2 =
      (0 : ℚ) := by
    intro k hk
    have hk1 : k < p.z.length - 1 := Finset.mem_range.mp hk
    rw [hstd2 (k + 1) (by omega)]
    simp
  have hWsum : (((p.z.getD 0 0 + p.z.getD 1 0) / 2) ^ 2 *
      |e (-(p.av.getD 0 0) / p.kT) * (-(p.std.getD 0 0) / p.kT)| ^ 2 +
      ∑ k in Finset.range (p.z.length - 1),
        (if k + 1 = p.z.length - 1 then 1 - (p.z.getD (k + 1) 0 + p.z.getD k 0) / 2
         else (p.z.getD (k + 2) 0 - p.z.getD k 0) / 2) ^ 2 *
          |e (-(p.av.getD (k + 1) 0) / p.kT) * (-(p.std.getD (k + 1) 0) / p.kT)| ^ 2) = 0 := by
    rw [hstd2 0 (by omega), Finset.sum_congr rfl hwterm]
    simp
  rw [hBsum, hWsum, div_self (sub_ne_zero.mpr hz), hl, hsq]
  simp

/-- Claim C5 is false as stated: on `pmfCE` the code's `standard_dg` returns
uncertainty `3/2` (the first node is weighted by `(z[0]+z[1])/2 = 3/2`),
while the weighting the claim describes (half the local trapezoid width at
every node, `standardDgClaim`) would give `1/2`. -/
theorem standard_dg_counterexample :
    UmbrellaPmf.standard_dg expOne logZero sqCE pmfCE = (0, 3 / 2) ∧
    standardDgClaim expOne logZero sqCE pmfCE = (0, 1 / 2) ∧
    UmbrellaPmf.standard_dg expOne logZero sqCE pmfCE ≠
      standardDgClaim expOne logZero sqCE pmfCE := by
  refine ⟨?_, ?_, ?_⟩
  · norm_num [UmbrellaPmf.standard_dg, UmbrellaPmf.trapz, npTrapz, pmfCE, expOne, logZero,
      sqCE, List.range_succ, abs]
  · norm_num [standardDgClaim, trapzSpecWeights, npTrapz, pmfCE, expOne, logZero,
      sqCE, List.range_succ, abs]
  · intro hc
    have h1 : UmbrellaPmf.standard_dg expOne logZero sqCE pmfCE = (0, 3 / 2) := by
      norm_num [UmbrellaPmf.standard_dg, UmbrellaPmf.trapz, npTrapz, pmfCE, expOne, logZero,
        sqCE, List.range_succ, abs]
    have h2 : standardDgClaim expOne logZero sqCE pmfCE = (0, 1 / 2) := by
      norm_num [standardDgClaim, trapzSpecWeights, npTrapz, pmfCE, expOne, logZero,
        sqCE, List.range_succ, abs]
    rw [h1, h2] at hc
    exact absurd (congrArg Prod.snd hc) (by norm_num)

/-- Witness for the corrected C5: applying the theorem's flat-PMF part at a
concrete flat ensemble yields `(0, 0)`. -/
theorem standard_dg_corrected_witness :
    UmbrellaPmf.standard_dg expOne logZero sqZero pmfFlat = (0, 0) :=
  (standard_dg_corrected expOne logZero sqZero pmfFlat (by norm_num [pmfFlat]) rfl rfl).2
    (by
      intro a ha
      rcases List.mem_cons.mp ha with rfl | ha2
      · rfl
      · rcases List.mem_cons.mp ha2 with rfl | ha3
        · rfl
        · exact absurd ha3 (by simp))
    (by
      intro a ha
      rcases List.mem_cons.mp ha with rfl | ha2
      · rfl
      · rcases List.mem_cons.mp ha2 with rfl | ha3
        · rfl
        · exact absurd ha3 (by simp))
    rfl rfl rfl (by norm_num [pmfFlat])

/-- Helper: a mapped list sum as a `Finset.range` sum over `getD` values. -/
theorem map_sum_getD {α : Type} (g : α → ℚ) (d : α) (l : List α) :
    (l.map g).sum = ∑ i in Finset.range l.length, g (l.getD i d) := by
  induction l with
  | nil => simp
  | cons a t ih =>
      rw [List.map_cons, List.sum_cons, List.length_cons, Finset.sum_range_succ', ih]
      simp only [List.getD_cons_succ, List.getD_cons_zero]
      rw [add_comm]

/-- Helper: `getD` into a map over `range`. -/
theorem getD_map_range (g : ℕ → ℚ) (n j : ℕ) (h : j < n) :
    ((List.range n).map g).getD j 0 = g j := by
  rw [getD_map_lt g (List.range n) 0 0 j (by simpa using h)]
  congr 1
  rw [List.getD_eq_getElem (List.range n) 0 (by simpa using h), List.getElem_range]

/-- Helper: the probabilities produced by the `__oneiter` bin loop, bin by
bin — each is independent of the `F` accumulator and equals
`num/denom` computed from `Fold`. -/
theorem oneiterLoop_fst (e : ℚ → ℚ) (sys : PyWhamSys) (hs : List (List ℚ))
    (Fold ns : List ℚ) : ∀ (idxs : List ℕ) (F : List ℚ),
    (oneiterLoop e sys hs Fold ns idxs F).1 = idxs.map (fun i =>
      (hs.map (fun h => h.getD i 0)).sum /
      (List.zipWith (fun x y => x * y)
        (List.zipWith (fun f b => e ((f - b) / sys.kT)) Fold
          (calcBias sys ((binMidpoints sys.bins).getD i 0))) ns).sum)
  | [], _ => rfl
  | i :: rest, F => by
      simp only [oneiterLoop, List.map_cons]
      rw [oneiterLoop_fst e sys hs Fold ns rest]

/-- Claim C1 (confirmed): each `PyWham` iteration computes, at the `j`-th bin
center `c`, `prob(c) = (Σ_i histogram_i(c)) / (Σ_i exp((Fold_i - bias_i(c))/kT) * n_i)`
with `bias_i(c) = 0.5*weight_i*(center_i - c)^2` and `n_i` the total count of
window `i`'s histogram. -/
theorem oneiter_prob_formula (e l : ℚ → ℚ) (sys : PyWhamSys) (hs : List (List ℚ))
    (Fold : List ℚ) (hc : sys.centers.length = hs.length)
    (hw : sys.weights.length = hs.length) (hF : Fold.length = hs.length)
    (j : ℕ) (hj : j < sys.bins.length - 1) :
    (oneiter e l sys hs Fold).2.getD j 0 =
      (∑ w in Finset.range hs.length, (hs.getD w []).getD j 0) /
      (∑ w in Finset.range hs.length,
        e ((Fold.getD w 0 - 1 / 2 * sys.weights.getD w 0 *
            (sys.centers.getD w 0 - (binMidpoints sys.bins).getD j 0) ^ 2) / sys.kT) *
          (hs.getD w []).sum) := by
  have h1 : (oneiter e l sys hs Fold).2 =
      (List.range (sys.bins.length - 1)).map (fun i =>
        (hs.map (fun h => h.getD i 0)).sum /
        (List.zipWith (fun x y => x * y)
          (List.zipWith (fun f b => e ((f - b) / sys.kT)) Fold
            (calcBias sys ((binMidpoints sys.bins).getD i 0))) (hs.map List.sum)).sum) := by
    show (oneiterLoop e sys hs Fold (hs.map List.sum)
        (List.range (sys.bins.length - 1)) (List.replicate hs.length 0)).1 = _
    exact oneiterLoop_fst e sys hs Fold (hs.map List.sum) _ _
  rw [h1, getD_map_range _ _ j hj]
  congr 1
  · exact map_sum_getD (fun h => h.getD j 0) [] hs
  · have hbias : (calcBias sys ((binMidpoints sys.bins).getD j 0)).length = hs.length := by
      unfold calcBias
      rw [List.length_zipWith, hc, hw, min_self]
    have hA : (List.zipWith (fun f b => e ((f - b) / sys.kT)) Fold
        (calcBias sys ((binMidpoints sys.bins).getD j 0))).length = hs.length := by
      rw [List.length_zipWith, hF, hbias, min_self]
    have hns : (hs.map List.sum).length = hs.length := List.length_map hs List.sum
    rw [sum_zipWith (fun x y => x * y) _ (hs.map List.sum) hs.length hA hns]
    refine Finset.sum_congr rfl ?_
    intro w hwmem
    have hw1 : w < hs.length := Finset.mem_range.mp hwmem
    rw [getD_zipWith_lt _ Fold (calcBias sys ((binMidpoints sys.bins).getD j 0)) w
      (by omega) (by omega)]
    have hbw : (calcBias sys ((binMidpoints sys.bins).getD j 0)).getD w 0 =
        1 / 2 * sys.weights.getD w 0 *
          ((sys.centers.getD w 0 - (binMidpoints sys.bins).getD j 0) *
           (sys.centers.getD w 0 - (binMidpoints sys.bins).getD j 0)) := by
      unfold calcBias
      rw [getD_zipWith_lt _ sys.centers sys.weights w (by omega) (by omega)]
    rw [hbw, getD_map_lt List.sum hs 0 [] w hw1]
    refine congrArg (fun t => t * (hs.getD w []).sum) (congrArg e ?_)
    ring

/-- Helper: `np.abs(F-Fold).max()` as modelled is never negative. -/
theorem maxAbsDiff_nonneg (F Fold : List ℚ) : 0 ≤ maxAbsDiff F Fold := by
  unfold maxAbsDiff
  induction List.zipWith (fun a b => |a - b|) F Fold with
  | nil => exact le_refl 0
  | cons a t ih => exact le_trans ih (le_max_right a _)

/-- Helper: with `maxiter = 0` and a tolerance below 0 the loop condition is
always true and the `niter == maxiter` break never fires, so no finite fuel
makes the loop exit. -/
theorem iterLoop_maxiter_zero_none (e l : ℚ → ℚ) (sys : PyWhamSys)
    (hs : List (List ℚ)) : ∀ (fuel : ℕ) (F Fold prob : List ℚ) (niter : ℕ),
    iterLoop e l sys hs (-1) 0 fuel F Fold prob niter = none := by
  intro fuel
  induction fuel with
  | zero => intro F Fold prob niter; rfl
  | succ f ih =>
      intro F Fold prob niter
      have hcond : niter = 0 ∨ ¬ maxAbsDiff F Fold ≤ (-1 : ℚ) := by
        rcases Nat.eq_zero_or_pos niter with h0 | _
        · exact Or.inl h0
        · refine Or.inr (fun hle => ?_)
          have := le_trans (maxAbsDiff_nonneg F Fold) hle
          norm_num at this
      show (if niter = 0 ∨ ¬ maxAbsDiff F Fold ≤ (-1 : ℚ) then
          if niter + 1 = 0 then _ else _ else _) = none
      rw [if_pos hcond, if_neg (Nat.succ_ne_zero niter)]
      exact ih _ _ _ _

/-- Helper: from the state after `k` iterations, the loop runs to exactly the
state after `N` iterations, where `N` is the first iteration whose new `F`
passes the convergence test, capped by `maxiter`.  The fuel needs to cover the
remaining `d = N - k` passes plus the final convergence check. -/
theorem iterLoop_run (e l : ℚ → ℚ) (sys : PyWhamSys) (hs : List (List ℚ))
    (tol : ℚ) (maxiter N : ℕ) (hNm : N ≤ maxiter)
    (hstop : maxAbsDiff (FSeq e l sys hs N) (FSeq e l sys hs (N - 1)) ≤ tol ∨ N = maxiter)
    (hmin : ∀ m, 1 ≤ m → m < N →
      ¬ maxAbsDiff (FSeq e l sys hs m) (FSeq e l sys hs (m - 1)) ≤ tol)
    (d : ℕ) : ∀ (k fuel : ℕ), k + d = N → k < N → d + 1 ≤ fuel →
    iterLoop e l sys hs tol maxiter fuel (FSeq e l sys hs k) (FSeq e l sys hs (k - 1))
      (probState e l sys hs k) k =
      some (FSeq e l sys hs N, FSeq e l sys hs (N - 1), probState e l sys hs N, N) := by
  induction d with
  | zero =>
      intro k fuel hkd hk _
      omega
  | succ d2 ih =>
      intro k fuel hkd hk hfuel
      obtain ⟨f, rfl⟩ : ∃ f, fuel = f + 1 := ⟨fuel - 1, by omega⟩
      have hcond : k = 0 ∨ ¬ maxAbsDiff (FSeq e l sys hs k) (FSeq e l sys hs (k - 1)) ≤ tol := by
        rcases Nat.eq_zero_or_pos k with h0 | h1
        · exact Or.inl h0
        · exact Or.inr (hmin k h1 hk)
      show (if k = 0 ∨ ¬ maxAbsDiff (FSeq e l sys hs k) (FSeq e l sys hs (k - 1)) ≤ tol then
          if k + 1 = maxiter then
            some ((oneiter e l sys hs (FSeq e l sys hs k)).1, FSeq e l sys hs k,
              (oneiter e l sys hs (FSeq e l sys hs k)).2, k + 1)
          else iterLoop e l sys hs tol maxiter f (oneiter e l sys hs (FSeq e l sys hs k)).1
            (FSeq e l sys hs k) (oneiter e l sys hs (FSeq e l sys hs k)).2 (k + 1)
        else some (FSeq e l sys hs k, FSeq e l sys hs (k - 1), probState e l sys hs k, k)) = _
      rw [if_pos hcond]
      by_cases hmax : k + 1 = maxiter
      · rw [if_pos hmax]
        obtain rfl : N = k + 1 := by omega
        rfl
      · rw [if_neg hmax]
        rcases Nat.lt_or_ge (k + 1) N with hlt | hge
        · exact ih (k + 1) f (by omega) hlt (by omega)
        · obtain rfl : N = k + 1 := by omega
          obtain ⟨f2, rfl⟩ : ∃ f2, f = f2 + 1 := ⟨f - 1, by omega⟩
          have hconv : maxAbsDiff (FSeq e l sys hs (k + 1)) (FSeq e l sys hs k) ≤ tol := by
            rcases hstop with h | h
            · simpa using h
            · exact absurd h hmax
          show (if k + 1 = 0 ∨ ¬ maxAbsDiff (FSeq e l sys hs (k + 1))
              (FSeq e l sys hs (k + 1 - 1)) ≤ tol then _ else
              some (FSeq e l sys hs (k + 1), FSeq e l sys hs (k + 1 - 1),
                probState e l sys hs (k + 1), k + 1)) = _
          rw [if_neg ?_]
          push_neg
          refine ⟨Nat.succ_ne_zero k, ?_⟩
          simpa using hconv

/-- Claim C2 (corrected): for every tolerance and every `maxiter ≥ 1`,
`PyWham.iterate` on a collection with histograms terminates, performing
exactly `N` iterations where `N` is the first iteration after which the
maximum absolute change in `F` between consecutive iterates is at or below
the tolerance, and `N = maxiter` when no earlier iteration converges (the
non-convergence warning is console output, not modelled); in every case the
post-loop normalization is applied to the last computed state.  With
`maxiter = 0` the loop can run forever (see the counterexample), so the
claim's quantification over every `maxiter` fails. -/
theorem pywham_iterate_terminates (e l : ℚ → ℚ) (sys : PyWhamSys)
    (hs : List (List ℚ)) (hh : sys.histograms = some hs) (tol : ℚ)
    (maxiter N : ℕ) (hm : 1 ≤ maxiter)
    (hN : N = whamIterCount e l sys hs tol maxiter) :
    1 ≤ N ∧ N ≤ maxiter ∧
    (maxAbsDiff (FSeq e l sys hs N) (FSeq e l sys hs (N - 1)) ≤ tol ∨ N = maxiter) ∧
    (∀ m, 1 ≤ m → m < N →
      ¬ maxAbsDiff (FSeq e l sys hs m) (FSeq e l sys hs (m - 1)) ≤ tol) ∧
    (∀ fuel, maxiter + 1 ≤ fuel →
      iterateF e l sys tol maxiter fuel =
        some (postLoop l sys.kT (binMidpoints sys.bins) (FSeq e l sys hs N)
          (probState e l sys hs N) N)) := by
  have hPN : (1 ≤ N ∧ maxAbsDiff (FSeq e l sys hs N) (FSeq e l sys hs (N - 1)) ≤ tol) ∨
      N = maxiter := by
    rw [hN]
    exact Nat.find_spec (p := fun n => (1 ≤ n ∧
      maxAbsDiff (FSeq e l sys hs n) (FSeq e l sys hs (n - 1)) ≤ tol) ∨ n = maxiter)
      ⟨maxiter, Or.inr rfl⟩
  have hNm : N ≤ maxiter := by
    rw [hN]
    exact Nat.find_min' _ (Or.inr rfl)
  have hN1 : 1 ≤ N := by
    rcases hPN with ⟨h1, _⟩ | h
    · exact h1
    · omega
  have hmin : ∀ m, 1 ≤ m → m < N →
      ¬ maxAbsDiff (FSeq e l sys hs m) (FSeq e l sys hs (m - 1)) ≤ tol := by
    intro m hm1 hmN hconv
    have := Nat.find_min (p := fun n => (1 ≤ n ∧
      maxAbsDiff (FSeq e l sys hs n) (FSeq e l sys hs (n - 1)) ≤ tol) ∨ n = maxiter)
      ⟨maxiter, Or.inr rfl⟩ (hN ▸ hmN)
    exact this (Or.inl ⟨hm1, hconv⟩)
  have hstop : maxAbsDiff (FSeq e l sys hs N) (FSeq e l sys hs (N - 1)) ≤ tol ∨ N = maxiter := by
    rcases hPN with ⟨_, h⟩ | h
    · exact Or.inl h
    · exact Or.inr h
  refine ⟨hN1, hNm, hstop, hmin, ?_⟩
  intro fuel hfuel
  unfold iterateF
  rw [hh]
  have hrun := iterLoop_run e l sys hs tol maxiter N hNm hstop hmin N 0 fuel
    (by omega) (by omega) (by omega)
  have hinit : iterLoop e l sys hs tol maxiter fuel (List.replicate hs.length 0)
      (List.replicate hs.length 0) (List.replicate (sys.bins.length - 1) 0) 0 =
      some (FSeq e l sys hs N, FSeq e l sys hs (N - 1), probState e l sys hs N, N) := hrun
  show Option.map (fun st => postLoop l sys.kT (binMidpoints sys.bins) st.1 st.2.2.1 st.2.2.2)
      (iterLoop e l sys hs tol maxiter fuel (List.replicate hs.length 0)
        (List.replicate hs.length 0) (List.replicate (sys.bins.length - 1) 0) 0) = _
  rw [hinit]
  rfl

/-- Claim C2 is false as stated for `maxiter = 0`: with tolerance `-1` (the
claim quantifies over every tolerance and the convergence test
`error.max() <= tolerance` can then never succeed, the error being
nonnegative) the `while` loop never exits, because the `niter == maxiter`
break never fires: `iterate` does not terminate. -/
theorem iterate_maxiter_zero_diverges :
    ¬ iterateTerminates expOne logZero sysTiny (-1) 0 := by
  rintro ⟨fuel, r, hr⟩
  have hr2 : Option.map (fun st => postLoop logZero sysTiny.kT (binMidpoints sysTiny.bins)
        st.1 st.2.2.1 st.2.2.2)
      (iterLoop expOne logZero sysTiny [[1]] (-1) 0 fuel (List.replicate 1 0)
        (List.replicate 1 0) (List.replicate (sysTiny.bins.length - 1) 0) 0) = some r := hr
  rw [iterLoop_maxiter_zero_none expOne logZero sysTiny [[1]] fuel] at hr2
  exact absurd hr2 (by simp)

/-- Witness for the corrected C2 at a concrete system, tolerance 0 and
`maxiter = 1`. -/
theorem pywham_iterate_terminates_witness :
    1 ≤ whamIterCount expOne logZero sysTiny [[1]] 0 1 ∧
    whamIterCount expOne logZero sysTiny [[1]] 0 1 ≤ 1 ∧
    (maxAbsDiff (FSeq expOne logZero sysTiny [[1]]
        (whamIterCount expOne logZero sysTiny [[1]] 0 1))
      (FSeq expOne logZero sysTiny [[1]]
        (whamIterCount expOne logZero sysTiny [[1]] 0 1 - 1)) ≤ 0 ∨
      whamIterCount expOne logZero sysTiny [[1]] 0 1 = 1) ∧
    (∀ m, 1 ≤ m → m < whamIterCount expOne logZero sysTiny [[1]] 0 1 →
      ¬ maxAbsDiff (FSeq expOne logZero sysTiny [[1]] m)
        (FSeq expOne logZero sysTiny [[1]] (m - 1)) ≤ 0) ∧
    (∀ fuel, 1 + 1 ≤ fuel →
      iterateF expOne logZero sysTiny 0 1 fuel =
        some (postLoop logZero sysTiny.kT (binMidpoints sysTiny.bins)
          (FSeq expOne logZero sysTiny [[1]]
            (whamIterCount expOne logZero sysTiny [[1]] 0 1))
          (probState expOne logZero sysTiny [[1]]
            (whamIterCount expOne logZero sysTiny [[1]] 0 1))
          (whamIterCount expOne logZero sysTiny [[1]] 0 1))) :=
  pywham_iterate_terminates expOne logZero sysTiny [[1]] rfl 0 1
    (whamIterCount expOne logZero sysTiny [[1]] 0 1) (le_refl 1) rfl

/-- Helper: a sum of a map over `List.range` as a `Finset.range` sum. -/
theorem sum_map_range (g : ℕ → ℚ) (n : ℕ) :
    ((List.range n).map g).sum = ∑ i in Finset.range n, g i := by
  induction n with
  | zero => simp
  | succ m ih =>
      rw [List.range_succ, List.map_append, List.sum_append, ih, Finset.sum_range_succ]
      simp

/-- Helper: the `F` accumulator of the bin loop keeps the number-of-windows
length (each update zips with the per-window bias vector). -/
theorem oneiterLoop_snd_length (e : ℚ → ℚ) (sys : PyWhamSys) (hs : List (List ℚ))
    (Fold ns : List ℚ) (hc : sys.centers.length = hs.length)
    (hw : sys.weights.length = hs.length) : ∀ (idxs : List ℕ) (F : List ℚ),
    F.length = hs.length → (oneiterLoop e sys hs Fold ns idxs F).2.length = hs.length
  | [], _, hF => hF
  | i :: rest, F, hF => by
      simp only [oneiterLoop]
      refine oneiterLoop_snd_length e sys hs Fold ns hc hw rest _ ?_
      rw [List.length_zipWith, hF]
      unfold calcBias
      rw [List.length_zipWith, hc, hw, min_self, min_self]

/-- Helper: every iterate of the bias free energies has one entry per
window. -/
theorem FSeq_length (e l : ℚ → ℚ) (sys : PyWhamSys) (hs : List (List ℚ))
    (hc : sys.centers.length = hs.length) (hw : sys.weights.length = hs.length) :
    ∀ n, (FSeq e l sys hs n).length = hs.length
  | 0 => List.length_replicate hs.length 0
  | n + 1 => by
      show ((oneiter e l sys hs (FSeq e l sys hs n)).1).length = hs.length
      unfold oneiter
      simp only [List.length_map]
      exact oneiterLoop_snd_length e sys hs (FSeq e l sys hs n) (hs.map List.sum) hc hw
        (List.range (sys.bins.length - 1)) (List.replicate hs.length 0)
        (List.length_replicate hs.length 0)

/-- Helper: a list whose members include a positive value and are all
nonnegative has positive sum. -/
theorem sum_pos_list : ∀ (l : List ℚ) (x : ℚ), x ∈ l → 0 < x → (∀ y ∈ l, 0 ≤ y) →
    0 < l.sum
  | [], x, hx, _, _ => absurd hx (List.not_mem_nil x)
  | a :: t, x, hx, hxpos, hnn => by
      rw [List.sum_cons]
      rcases List.mem_cons.mp hx with rfl | hxt
      · exact add_pos_of_pos_of_nonneg hxpos
          (List.sum_nonneg (fun y hy => hnn y (List.mem_cons_of_mem _ hy)))
      · exact add_pos_of_nonneg_of_pos (hnn a (List.mem_cons_self a t))
          (sum_pos_list t x hxt hxpos (fun y hy => hnn y (List.mem_cons_of_mem a hy)))

/-- Helper: a positive list sum has a positive member. -/
theorem exists_pos_of_sum_pos : ∀ l : List ℚ, 0 < l.sum → ∃ x ∈ l, 0 < x
  | [], h => by simp at h
  | a :: t, h => by
      by_cases ha : 0 < a
      · exact ⟨a, List.mem_cons_self a t, ha⟩
      · have ht : 0 < t.sum := by
          rw [List.sum_cons] at h
          push_neg at ha
          linarith
        obtain ⟨x, hx, hxp⟩ := exists_pos_of_sum_pos t ht
        exact ⟨x, List.mem_cons_of_mem a hx, hxp⟩

/-- Helper: `getD` with default 0 of an all-nonnegative list is nonnegative. -/
theorem getD_nonneg (h : List ℚ) (j : ℕ) (hnn : ∀ x ∈ h, 0 ≤ x) : 0 ≤ h.getD j 0 := by
  rcases Nat.lt_or_ge j h.length with hj | hj
  · rw [List.getD_eq_getElem h 0 hj]
    exact hnn _ (List.getElem_mem hj)
  · rw [List.getD_eq_default h 0 hj]

/-- Helper: dividing every entry of a list divides its sum. -/
theorem list_sum_map_div : ∀ (l : List ℚ) (s : ℚ),
    (l.map (fun x => x / s)).sum = l.sum / s
  | [], s => by simp
  | a :: t, s => by
      rw [List.map_cons, List.sum_cons, List.sum_cons, list_sum_map_div t s, add_div]

/-- Helper: `headD` is `getD 0`. -/
theorem headD_eq_getD_zero (l : List ℚ) (d : ℚ) : l.headD d = l.getD 0 d := by
  cases l <;> rfl

/-- Helper: shifting a list by its own head puts 0 at the head. -/
theorem headD_shift (l : List ℚ) : (l.map (fun f => f - l.headD 0)).headD 0 = 0 := by
  cases l with
  | nil => rfl
  | cons a t => simp

/-- Helper: whenever the loop exits, the returned state is the state after
some `m ≥ 1` iterations: `F` and `prob` come from the last `__oneiter` call
and `Fold` from the iteration before it. -/
theorem iterLoop_some_shape (e l : ℚ → ℚ) (sys : PyWhamSys) (hs : List (List ℚ))
    (tol : ℚ) (maxiter : ℕ) : ∀ (fuel k : ℕ) (out : List ℚ × List ℚ × List ℚ × ℕ),
    iterLoop e l sys hs tol maxiter fuel (FSeq e l sys hs k) (FSeq e l sys hs (k - 1))
      (probState e l sys hs k) k = some out →
    ∃ m, 1 ≤ m ∧
      out = (FSeq e l sys hs m, FSeq e l sys hs (m - 1), probState e l sys hs m, m) := by
  intro fuel
  induction fuel with
  | zero =>
      intro k out h
      exact absurd h (by simp [iterLoop])
  | succ f ih =>
      intro k out h
      rw [show iterLoop e l sys hs tol maxiter (f + 1) (FSeq e l sys hs k)
          (FSeq e l sys hs (k - 1)) (probState e l sys hs k) k =
          (if k = 0 ∨ ¬ maxAbsDiff (FSeq e l sys hs k) (FSeq e l sys hs (k - 1)) ≤ tol then
            if k + 1 = maxiter then
              some ((oneiter e l sys hs (FSeq e l sys hs k)).1, FSeq e l sys hs k,
                (oneiter e l sys hs (FSeq e l sys hs k)).2, k + 1)
            else iterLoop e l sys hs tol maxiter f
              (oneiter e l sys hs (FSeq e l sys hs k)).1 (FSeq e l sys hs k)
              (oneiter e l sys hs (FSeq e l sys hs k)).2 (k + 1)
          else some (FSeq e l sys hs k, FSeq e l sys hs (k - 1), probState e l sys hs k, k))
          from rfl] at h
      by_cases hcond : k = 0 ∨ ¬ maxAbsDiff (FSeq e l sys hs k) (FSeq e l sys hs (k - 1)) ≤ tol
      · rw [if_pos hcond] at h
        by_cases hmax : k + 1 = maxiter
        · rw [if_pos hmax] at h
          exact ⟨k + 1, by omega, (Option.some.inj h).symm⟩
        · rw [if_neg hmax] at h
          exact ih (k + 1) out h
      · rw [if_neg hcond] at h
        push_neg at hcond
        exact ⟨k, Nat.one_le_iff_ne_zero.mpr hcond.1, (Option.some.inj h).symm⟩

/-- Helper: the denominator of the probability update as a window sum. -/
theorem denom_sum_eq (e : ℚ → ℚ) (sys : PyWhamSys) (hs : List (List ℚ))
    (Fold : List ℚ) (hc : sys.centers.length = hs.length)
    (hw : sys.weights.length = hs.length) (hF : Fold.length = hs.length) (c : ℚ) :
    (List.zipWith (fun x y => x * y)
      (List.zipWith (fun f b => e ((f - b) / sys.kT)) Fold (calcBias sys c))
      (hs.map List.sum)).sum =
    ∑ w in Finset.range hs.length,
      e ((Fold.getD w 0 - (calcBias sys c).getD w 0) / sys.kT) * (hs.getD w []).sum := by
  have hbias : (calcBias sys c).length = hs.length := by
    unfold calcBias
    rw [List.length_zipWith, hc, hw, min_self]
  have hA : (List.zipWith (fun f b => e ((f - b) / sys.kT)) Fold
      (calcBias sys c)).length = hs.length := by
    rw [List.length_zipWith, hF, hbias, min_self]
  rw [sum_zipWith (fun x y => x * y) _ _ hs.length hA (List.length_map hs List.sum)]
  refine Finset.sum_congr rfl ?_
  intro w hwm
  have hw1 : w < hs.length := Finset.mem_range.mp hwm
  rw [getD_zipWith_lt _ Fold (calcBias sys c) w (by omega) (by omega),
    getD_map_lt List.sum hs 0 [] w hw1]

/-- Claim C3 (confirmed): whenever `PyWham.iterate` returns on a collection
with built (nonempty-total-count) histograms — whether it converged or hit
the cap — the final state has `prob` summing exactly to 1, `free[0] == 0`
exactly, and `free` equal to `-kT*ln(prob)` shifted so its first entry is
zero. -/
theorem pywham_postloop_properties (e l : ℚ → ℚ) (sys : PyWhamSys)
    (hs : List (List ℚ)) (tol : ℚ) (maxiter fuel : ℕ) (r : WhamResult)
    (hh : sys.histograms = some hs)
    (hrun : iterateF e l sys tol maxiter fuel = some r)
    (hpos : ∀ x, 0 < e x)
    (hnn : ∀ h ∈ hs, ∀ x ∈ h, 0 ≤ x)
    (hlen : ∀ h ∈ hs, h.length = sys.bins.length - 1)
    (hc : sys.centers.length = hs.length)
    (hw : sys.weights.length = hs.length)
    (htot : 0 < (hs.map List.sum).sum) :
    r.prob.sum = 1 ∧ r.free.headD 0 = 0 ∧
    ∀ j, j < r.prob.length →
      r.free.getD j 0 = -sys.kT * l (r.prob.getD j 0) -
        (-sys.kT * l (r.prob.getD 0 0)) := by
  unfold iterateF at hrun
  rw [hh] at hrun
  have hrun2 : Option.map (fun st => postLoop l sys.kT (binMidpoints sys.bins)
      st.1 st.2.2.1 st.2.2.2)
      (iterLoop e l sys hs tol maxiter fuel (List.replicate hs.length 0)
        (List.replicate hs.length 0) (List.replicate (sys.bins.length - 1) 0) 0) =
      some r := hrun
  obtain ⟨st, hst, hpost⟩ := Option.map_eq_some'.mp hrun2
  have hst2 : iterLoop e l sys hs tol maxiter fuel (FSeq e l sys hs 0)
      (FSeq e l sys hs (0 - 1)) (probState e l sys hs 0) 0 = some st := hst
  obtain ⟨m, hm1, rfl⟩ := iterLoop_some_shape e l sys hs tol maxiter fuel 0 st hst2
  obtain ⟨n, rfl⟩ : ∃ n, m = n + 1 := ⟨m - 1, by omega⟩
  subst hpost
  set nbins := sys.bins.length - 1 with hnbins
  have hq : probState e l sys hs (n + 1) = (List.range nbins).map (fun i =>
      (hs.map (fun h => h.getD i 0)).sum /
      (List.zipWith (fun x y => x * y)
        (List.zipWith (fun f b => e ((f - b) / sys.kT)) (FSeq e l sys hs n)
          (calcBias sys ((binMidpoints sys.bins).getD i 0))) (hs.map List.sum)).sum) := by
    show (oneiterLoop e sys hs (FSeq e l sys hs n) (hs.map List.sum)
        (List.range nbins) (List.replicate hs.length 0)).1 = _
    exact oneiterLoop_fst e sys hs (FSeq e l sys hs n) (hs.map List.sum) _ _
  have hFlen : (FSeq e l sys hs n).length = hs.length := FSeq_length e l sys hs hc hw n
  have hdenom_nonneg : ∀ c : ℚ, 0 ≤ (List.zipWith (fun x y => x * y)
      (List.zipWith (fun f b => e ((f - b) / sys.kT)) (FSeq e l sys hs n)
        (calcBias sys c)) (hs.map List.sum)).sum := by
    intro c
    rw [denom_sum_eq e sys hs (FSeq e l sys hs n) hc hw hFlen c]
    refine Finset.sum_nonneg ?_
    intro w hwm
    refine mul_nonneg (le_of_lt (hpos _)) ?_
    have hw1 : w < hs.length := Finset.mem_range.mp hwm
    exact List.sum_nonneg (hnn _ (getD_mem_of_lt hs [] w hw1))
  have hqnn : ∀ y ∈ probState e l sys hs (n + 1), 0 ≤ y := by
    rw [hq]
    intro y hy
    obtain ⟨i, _, rfl⟩ := List.mem_map.mp hy
    refine div_nonneg ?_ (hdenom_nonneg _)
    refine List.sum_nonneg ?_
    intro y2 hy2
    obtain ⟨h0, hh0, rfl⟩ := List.mem_map.mp hy2
    exact getD_nonneg h0 i (hnn h0 hh0)
  obtain ⟨y0, hy0mem, hy0pos⟩ := exists_pos_of_sum_pos _ htot
  obtain ⟨h0, hh0, rfl⟩ := List.mem_map.mp hy0mem
  obtain ⟨x0, hx0mem, hx0pos⟩ := exists_pos_of_sum_pos h0 hy0pos
  obtain ⟨j, hjlen, hjx⟩ := List.mem_iff_getElem.mp hx0mem
  have hjnb : j < nbins := by
    rw [← hlen h0 hh0]
    exact hjlen
  obtain ⟨w0, hw0lt, hw0x⟩ := List.mem_iff_getElem.mp hh0
  have hnumpos : 0 < (hs.map (fun h => h.getD j 0)).sum := by
    refine sum_pos_list _ (h0.getD j 0) (List.mem_map_of_mem _ hh0) ?_ ?_
    · rw [List.getD_eq_getElem h0 0 hjlen, hjx]
      exact hx0pos
    · intro y hy
      obtain ⟨h1, hh1, rfl⟩ := List.mem_map.mp hy
      exact getD_nonneg h1 j (hnn h1 hh1)
  have hdenpos : 0 < (List.zipWith (fun x y => x * y)
      (List.zipWith (fun f b => e ((f - b) / sys.kT)) (FSeq e l sys hs n)
        (calcBias sys ((binMidpoints sys.bins).getD j 0)))
      (hs.map List.sum)).sum := by
    rw [denom_sum_eq e sys hs (FSeq e l sys hs n) hc hw hFlen _]
    refine Finset.sum_pos' ?_ ⟨w0, Finset.mem_range.mpr hw0lt, ?_⟩
    · intro w hwm
      refine mul_nonneg (le_of_lt (hpos _)) ?_
      have hw1 : w < hs.length := Finset.mem_range.mp hwm
      exact List.sum_nonneg (hnn _ (getD_mem_of_lt hs [] w hw1))
    · refine mul_pos (hpos _) ?_
      rw [List.getD_eq_getElem hs [] hw0lt, hw0x]
      exact hy0pos
  have hqj : 0 < (hs.map (fun h => h.getD j 0)).sum /
      (List.zipWith (fun x y => x * y)
        (List.zipWith (fun f b => e ((f - b) / sys.kT)) (FSeq e l sys hs n)
          (calcBias sys ((binMidpoints sys.bins).getD j 0))) (hs.map List.sum)).sum :=
    div_pos hnumpos hdenpos
  have hSpos : 0 < (probState e l sys hs (n + 1)).sum := by
    rw [hq]
    refine sum_pos_list _ _ (List.mem_map_of_mem _ (List.mem_range.mpr hjnb)) hqj ?_
    intro y hy
    refine hqnn y ?_
    rw [hq]
    exact hy
  refine ⟨?_, ?_, ?_⟩
  · show ((probState e l sys hs (n + 1)).map
        (fun p => p / (probState e l sys hs (n + 1)).sum)).sum = 1
    rw [list_sum_map_div]
    exact div_self (ne_of_gt hSpos)
  · exact headD_shift _
  · intro j2 hj2
    have hj2len : j2 < ((probState e l sys hs (n + 1)).map
        (fun p => p / (probState e l sys hs (n + 1)).sum)).length := hj2
    have hj2q : j2 < (probState e l sys hs (n + 1)).length := by
      rw [List.length_map] at hj2len
      exact hj2len
    have h0q : 0 < (probState e l sys hs (n + 1)).length := by omega
    show ((((probState e l sys hs (n + 1)).map
          (fun p => p / (probState e l sys hs (n + 1)).sum)).map
            (fun p => -sys.kT * l p)).map
        (fun f => f - (((probState e l sys hs (n + 1)).map
          (fun p => p / (probState e l sys hs (n + 1)).sum)).map
            (fun p => -sys.kT * l p)).headD 0)).getD j2 0 =
      -sys.kT * l (((probState e l sys hs (n + 1)).map
          (fun p => p / (probState e l sys hs (n + 1)).sum)).getD j2 0) -
        (-sys.kT * l (((probState e l sys hs (n + 1)).map
          (fun p => p / (probState e l sys hs (n + 1)).sum)).getD 0 0))
    rw [getD_map_lt _ _ 0 0 j2 (by simpa using hj2q),
      getD_map_lt (fun p => -sys.kT * l p) _ 0 0 j2 (by simpa using hj2q),
      headD_eq_getD_zero,
      getD_map_lt (fun p => -sys.kT * l p) _ 0 0 0 (by simpa using h0q)]

/-- Witness for C1 at a concrete two-window system and the first bin. -/
theorem oneiter_prob_formula_witness :
    (oneiter expOne logZero sysC1 [[1, 2], [3, 4]] [0, 0]).2.getD 0 0 =
      (∑ w in Finset.range 2, (([[1, 2], [3, 4]] : List (List ℚ)).getD w []).getD 0 0) /
      (∑ w in Finset.range 2,
        expOne ((([0, 0] : List ℚ).getD w 0 - 1 / 2 * sysC1.weights.getD w 0 *
            (sysC1.centers.getD w 0 - (binMidpoints sysC1.bins).getD 0 0) ^ 2) / sysC1.kT) *
          (([[1, 2], [3, 4]] : List (List ℚ)).getD w []).sum) :=
  oneiter_prob_formula expOne logZero sysC1 [[1, 2], [3, 4]] [0, 0] rfl rfl rfl 0
    (by norm_num [sysC1])

/-- Helper: concrete `iterate` run on the one-window system, used by the C3
witness (tolerance 0, `maxiter = 1`, fuel 2). -/
theorem iterateF_sysTiny_eval : iterateF expOne logZero sysTiny 0 1 2 =
    some (postLoop logZero sysTiny.kT (binMidpoints sysTiny.bins)
      (FSeq expOne logZero sysTiny [[1]] 1) (probState expOne logZero sysTiny [[1]] 1) 1) := by
  have hrun := iterLoop_run expOne logZero sysTiny [[1]] 0 1 1 (le_refl 1) (Or.inr rfl)
    (fun m hm1 hmN => absurd hmN (by omega)) 1 0 2 (by omega) (by omega) (by omega)
  show Option.map (fun st => postLoop logZero sysTiny.kT (binMidpoints sysTiny.bins)
      st.1 st.2.2.1 st.2.2.2)
      (iterLoop expOne logZero sysTiny [[1]] 0 1 2 (List.replicate 1 0)
        (List.replicate 1 0) (List.replicate (sysTiny.bins.length - 1) 0) 0) = _
  have hinit : iterLoop expOne logZero sysTiny [[1]] 0 1 2 (List.replicate 1 0)
      (List.replicate 1 0) (List.replicate (sysTiny.bins.length - 1) 0) 0 =
      some (FSeq expOne logZero sysTiny [[1]] 1, FSeq expOne logZero sysTiny [[1]] 0,
        probState expOne logZero sysTiny [[1]] 1, 1) := hrun
  rw [hinit]
  rfl

/-- Witness for C3 at the concrete one-window run. -/
theorem pywham_postloop_properties_witness :
    (postLoop logZero sysTiny.kT (binMidpoints sysTiny.bins)
        (FSeq expOne logZero sysTiny [[1]] 1)
        (probState expOne logZero sysTiny [[1]] 1) 1).prob.sum = 1 ∧
    (postLoop logZero sysTiny.kT (binMidpoints sysTiny.bins)
        (FSeq expOne logZero sysTiny [[1]] 1)
        (probState expOne logZero sysTiny [[1]] 1) 1).free.headD 0 = 0 ∧
    ∀ j, j < (postLoop logZero sysTiny.kT (binMidpoints sysTiny.bins)
        (FSeq expOne logZero sysTiny [[1]] 1)
        (probState expOne logZero sysTiny [[1]] 1) 1).prob.length →
      (postLoop logZero sysTiny.kT (binMidpoints sysTiny.bins)
        (FSeq expOne logZero sysTiny [[1]] 1)
        (probState expOne logZero sysTiny [[1]] 1) 1).free.getD j 0 =
        -sysTiny.kT * logZero ((postLoop logZero sysTiny.kT (binMidpoints sysTiny.bins)
          (FSeq expOne logZero sysTiny [[1]] 1)
          (probState expOne logZero sysTiny [[1]] 1) 1).prob.getD j 0) -
        (-sysTiny.kT * logZero ((postLoop logZero sysTiny.kT (binMidpoints sysTiny.bins)
          (FSeq expOne logZero sysTiny [[1]] 1)
          (probState expOne logZero sysTiny [[1]] 1) 1).prob.getD 0 0)) :=
  pywham_postloop_properties expOne logZero sysTiny [[1]] 0 1 2 _ rfl
    iterateF_sysTiny_eval (fun _ => one_pos)
    (by
      intro h hh x hx
      rcases List.mem_cons.mp hh with rfl | h2
      · rcases List.mem_cons.mp hx with rfl | h3
        · norm_num
        · exact absurd h3 (by simp)
      · exact absurd h2 (by simp))
    (by
      intro h hh
      rcases List.mem_cons.mp hh with rfl | h2
      · norm_num [sysTiny]
      · exact absurd h2 (by simp))
    rfl rfl (by norm_num)

/-- Claim C4 exhibits a code bug: on `sysC4` (nbins = 2), `pmf()` returns
`z = [1]` — a single value, the midpoint of the two bin *centers* that
`PyWham.iterate` wrote into `self.bins` — while `free = [0, 0]` has `nbins`
entries, so the two returned arrays are misaligned (lengths 1 vs 2); the
claim (and the spec) say `z` should be the `nbins` midpoints of the bin
edges, `[1/2, 3/2]` here, aligned with `free`. -/
theorem pywham_pmf_misaligned :
    pyWhamPmf expOne logZero sysC4 2 = some ([1], [0, 0]) ∧
    List.zipWith (fun a b => (a + b) / 2) sysC4.bins.dropLast sysC4.bins.tail =
      [1 / 2, 3 / 2] := by
  have hF1 : FSeq expOne logZero sysC4 [[1, 1]] 1 = [0] := by
    norm_num [FSeq, oneiter, oneiterLoop, calcBias, binMidpoints, sysC4, expOne, logZero,
      List.range_succ, List.getLastD]
  have hProb1 : probState expOne logZero sysC4 [[1, 1]] 1 = [1 / 2, 1 / 2] := by
    norm_num [probState, FSeq, oneiter, oneiterLoop, calcBias, binMidpoints, sysC4, expOne,
      logZero, List.range_succ]
  have hstop : maxAbsDiff (FSeq expOne logZero sysC4 [[1, 1]] 1)
      (FSeq expOne logZero sysC4 [[1, 1]] (1 - 1)) ≤ 1 / 100000 ∨ (1 : ℕ) = 100000 := by
    refine Or.inl ?_
    rw [hF1]
    norm_num [FSeq, maxAbsDiff, List.replicate]
  have hrun := iterLoop_run expOne logZero sysC4 [[1, 1]] (1 / 100000) 100000 1
    (by omega) hstop (fun m hm1 hmN => absurd hmN (by omega)) 1 0 2
    (by omega) (by omega) (by omega)
  have hiter : iterateF expOne logZero sysC4 (1 / 100000) 100000 2 =
      some (postLoop logZero sysC4.kT (binMidpoints sysC4.bins)
        (FSeq expOne logZero sysC4 [[1, 1]] 1)
        (probState expOne logZero sysC4 [[1, 1]] 1) 1) := by
    show Option.map (fun st => postLoop logZero sysC4.kT (binMidpoints sysC4.bins)
        st.1 st.2.2.1 st.2.2.2)
        (iterLoop expOne logZero sysC4 [[1, 1]] (1 / 100000) 100000 2
          (List.replicate 1 0) (List.replicate 1 0)
          (List.replicate (sysC4.bins.length - 1) 0) 0) = _
    have hinit : iterLoop expOne logZero sysC4 [[1, 1]] (1 / 100000) 100000 2
        (List.replicate 1 0) (List.replicate 1 0)
        (List.replicate (sysC4.bins.length - 1) 0) 0 =
        some (FSeq expOne logZero sysC4 [[1, 1]] 1, FSeq expOne logZero sysC4 [[1, 1]] (1 - 1),
          probState expOne logZero sysC4 [[1, 1]] 1, 1) := hrun
    rw [hinit]
    rfl
  have hmid : binMidpoints sysC4.bins = [1 / 2, 3 / 2] := by
    norm_num [binMidpoints, sysC4]
  constructor
  · rw [show pyWhamPmf expOne logZero sysC4 2 =
        (iterateF expOne logZero sysC4 (1 / 100000) 100000 2).map
          (fun r => (List.zipWith (fun a b => (a + b) / 2) r.bins.dropLast r.bins.tail,
            r.free)) from rfl, hiter, hmid, hProb1, hF1]
    norm_num [postLoop, logZero]
  · norm_num [sysC4]
